import Mathlib

/-!
Verification development for the SoundPixel codec backend.

The development shallowly embeds the three core modules of the backend:

* `Encryption` — the password-based authenticated-encryption envelope
  (encryption.py).  The AES-256-GCM cipher and the PBKDF2 key derivation are
  external cryptographic primitives; they are modelled by an abstract `AEAD`
  structure whose cryptographic properties (tag length, decryption
  correctness, rejection under a wrong key) appear as explicit hypotheses of
  the theorems that need them.  A concrete executable instance `toyAead` is
  provided so that closed statements can be evaluated.
* `CodecPng` — the pixel-packing image codec (codec_png.py).  PNG
  serialisation via PIL is lossless and is modelled as the identity on the
  flat row-major R,G,B byte stream: `encode` returns that stream and
  `decode` consumes it.
* `CodecMp3` — the trailing-block audio codec (codec_mp3.py).

Bytes are modelled as natural numbers and byte buffers as lists of naturals;
filenames are identified with their UTF-8 byte sequences (Python encodes the
name to UTF-8 before storing it and the stored bytes are what decode
recovers).  Machine integers are `Nat` with explicit reduction modulo 2^w
where the source packs fixed-width fields.  Fallible operations return
`Except Err`, with one `Err` constructor per exception class of the source.
-/

set_option maxRecDepth 100000

deriving instance DecidableEq for Except

namespace SoundPixel

abbrev Bytes := List Nat

/-! ### Big-endian fixed-width packing (struct.pack / struct.unpack) -/

/-- Model of struct.pack with format >H : two bytes, big-endian. -/
def u16be (n : Nat) : Bytes := [n / 2 ^ 8 % 256, n % 256]

/-- Model of struct.pack with format >I : four bytes, big-endian. -/
def u32be (n : Nat) : Bytes :=
  [n / 2 ^ 24 % 256, n / 2 ^ 16 % 256, n / 2 ^ 8 % 256, n % 256]

/-- Model of struct.pack with format >Q : eight bytes, big-endian. -/
def u64be (n : Nat) : Bytes :=
  [n / 2 ^ 56 % 256, n / 2 ^ 48 % 256, n / 2 ^ 40 % 256, n / 2 ^ 32 % 256,
   n / 2 ^ 24 % 256, n / 2 ^ 16 % 256, n / 2 ^ 8 % 256, n % 256]

/-- Big-endian value of a byte sequence (model of struct.unpack). -/
def beVal (l : Bytes) : Nat := l.foldl (fun a b => a * 256 + b) 0

/-! ### CRC-32 (zlib.crc32), bitwise reflected polynomial 0xEDB88320 -/

/-- One shift step of the reflected CRC-32 computation. -/
def crcStep (c : Nat) : Nat :=
  if c % 2 = 1 then (c / 2) ^^^ 0xEDB88320 else c / 2

/-- Fold one input byte into the CRC accumulator. -/
def crcByte (c b : Nat) : Nat := crcStep^[8] (c ^^^ b % 256)

/-- Model of zlib.crc32 over a whole buffer (masked with 0xFFFFFFFF). -/
def crc32 (data : Bytes) : Nat :=
  (data.foldl crcByte 0xFFFFFFFF) ^^^ 0xFFFFFFFF

/-! ### Substring search from the right (Python bytes.rfind) -/

/-- Whether needle occurs in hay starting at index i (Python
    hay[i:i+len(needle)] == needle). -/
def matchesAt (hay needle : Bytes) (i : Nat) : Bool :=
  (hay.drop i).take needle.length == needle

/-- Scan from index top downward for the highest index where needle matches. -/
def rfindLoop (hay needle : Bytes) : Nat → Option Nat
  | 0 => if matchesAt hay needle 0 then some 0 else none
  | i + 1 => if matchesAt hay needle (i + 1) then some (i + 1)
             else rfindLoop hay needle i

/-- Model of Python hay.rfind(needle, 0, stop): the largest index i with
    i + needle.length ≤ stop at which needle occurs in hay, if any. -/
def rfind (hay needle : Bytes) (stop : Nat) : Option Nat :=
  if needle.length ≤ stop then rfindLoop hay needle (stop - needle.length)
  else none

/-! ### Exact ceiling square root (model of math.ceil(math.sqrt(n)))

The source computes math.ceil(math.sqrt(num_pixels)) in double-precision
floating point; for every feasible pixel count (far below 2^52) the float
computation agrees with the exact integer ceiling square root, which is what
is modelled here.  The definition searches upward with explicit fuel so that
it reduces in the kernel. -/

def ceilSqrtFrom (n : Nat) : Nat → Nat → Nat
  | w, 0 => w
  | w, f + 1 => if n ≤ w * w then w else ceilSqrtFrom n (w + 1) f

/-- Least w with n ≤ w * w, i.e. the ceiling of the real square root. -/
def ceilSqrt (n : Nat) : Nat := ceilSqrtFrom n 0 (n + 1)

/-- Ceiling division (model of math.ceil(a / b) for positive b). -/
def ceilDiv (a b : Nat) : Nat := (a + b - 1) / b

/-! ### Error taxonomy

One constructor per exception class in the source modules. -/

inductive Err
  | notAPngCodecFile
  | pngCorrupted
  | pngVersionErr
  | notEncoded
  | corruptedFile
  | unsupportedVersion
  | decryptionFailed
  | invalidPassword
deriving DecidableEq

/-- Truthiness of the optional password argument (Python `if password:`,
    false for both None and the empty string). -/
def pwTruthy : Option String → Bool
  | none => false
  | some s => !s.isEmpty

/-! ### Abstract AEAD cipher and key derivation

The cryptography library's AESGCM and PBKDF2HMAC are external primitives.
They are modelled by this structure: `deriveKey` stands for
PBKDF2-SHA256(password, salt), `enc` for AESGCM.encrypt split into
(ciphertext, tag), and `dec` for AESGCM.decrypt, returning none exactly when
authentication fails (the source's InvalidTag exception). -/

structure AEAD where
  deriveKey : String → Bytes → Bytes
  enc : Bytes → Bytes → Bytes → Bytes × Bytes
  dec : Bytes → Bytes → Bytes → Bytes → Option Bytes

/-- Executable instance standing in for the real cipher in closed
    evaluations: the ciphertext is the plaintext with every byte XORed with
    1 and the tag is a 16-byte checksum of key, nonce and ciphertext. -/
def toyTag (key nonce ct : Bytes) : Bytes :=
  List.replicate 16 ((key.sum + 2 * nonce.sum + 3 * ct.sum + ct.length) % 256)

def toyAead : AEAD where
  deriveKey := fun p salt => p.toList.map Char.toNat ++ salt
  enc := fun k n pt =>
    (pt.map (fun b => b ^^^ 1), toyTag k n (pt.map (fun b => b ^^^ 1)))
  dec := fun k n ct tag =>
    if tag = toyTag k n ct then some (ct.map (fun b => b ^^^ 1)) else none

namespace Encryption

/-- Encryption magic b"SPXLENC\x00" (encryption.MAGIC). -/
def MAGIC : Bytes := [83, 80, 88, 76, 69, 78, 67, 0]

def MAGIC_LEN : Nat := 8
def SALT_LEN : Nat := 16
def NONCE_LEN : Nat := 16
def TAG_LEN : Nat := 16
def CIPHER_LEN_FIELD : Nat := 8

/-- Total fixed header: 8 + 16 + 16 + 16 + 8 = 64 bytes. -/
def HEADER_LEN : Nat := 64

/-- Layout builder of encryption.encrypt after its password check: the salt
    and nonce arguments stand for the os.urandom(16) draws, made explicit
    because the model is deterministic. -/
def encryptRaw (A : AEAD) (salt nonce plaintext : Bytes) (password : String) :
    Bytes :=
  let key := A.deriveKey password salt
  let ct := (A.enc key nonce plaintext).1
  let tag := (A.enc key nonce plaintext).2
  MAGIC ++ salt ++ nonce ++ tag ++ u64be ct.length ++ ct

/-- Model of encryption.encrypt, including the empty-password check. -/
def encrypt (A : AEAD) (salt nonce plaintext : Bytes) (password : String) :
    Except Err Bytes :=
  if password = "" then .error .invalidPassword
  else .ok (encryptRaw A salt nonce plaintext password)

/-- Model of encryption.decrypt. -/
def decrypt (A : AEAD) (data : Bytes) (password : String) : Except Err Bytes :=
  if password = "" then .error .invalidPassword
  else if data.length < HEADER_LEN then .error .decryptionFailed
  else if data.take 8 ≠ MAGIC then .error .decryptionFailed
  else
    let salt := (data.drop 8).take 16
    let nonce := (data.drop 24).take 16
    let tag := (data.drop 40).take 16
    let cipherLen := beVal ((data.drop 56).take 8)
    let ciphertext := (data.drop 64).take cipherLen
    if ciphertext.length ≠ cipherLen then .error .decryptionFailed
    else
      match A.dec (A.deriveKey password salt) nonce ciphertext tag with
      | none => .error .decryptionFailed
      | some pt => .ok pt

/-- Model of encryption.is_encrypted. -/
def isEncrypted (data : Bytes) : Bool := MAGIC.isPrefixOf data

end Encryption

namespace CodecPng

/-- Image codec magic b"SPXL". -/
def MAGIC : Bytes := [83, 80, 88, 76]

def VERSION : Nat := 1
def HEADER_PREFIX : Nat := 22
def MAX_FNAME_LEN : Nat := 255

/-- UTF-8 bytes of the default filename "file.bin" substituted for an empty
    name by encode. -/
def defaultFilename : Bytes := [102, 105, 108, 101, 46, 98, 105, 110]

/-- Model of codec_png._build_header; the filename argument is the UTF-8
    byte sequence of the Python string. -/
def buildHeader (data fname : Bytes) : Bytes :=
  let fnameBytes := fname.take MAX_FNAME_LEN
  MAGIC ++ u32be VERSION ++ u64be data.length ++ u32be (crc32 data) ++
    u16be fnameBytes.length ++ fnameBytes

/-- Model of codec_png._parse_header.  Returns
    (version, data_len, crc32, filename bytes, header_total_bytes). -/
def parseHeader (stream : Bytes) : Except Err (Nat × Nat × Nat × Bytes × Nat) :=
  if stream.length < HEADER_PREFIX then .error .notAPngCodecFile
  else
    let magic := stream.take 4
    let version := beVal ((stream.drop 4).take 4)
    let dataLen := beVal ((stream.drop 8).take 8)
    let crc := beVal ((stream.drop 16).take 4)
    let fnameLen := beVal ((stream.drop 20).take 2)
    if magic ≠ MAGIC then .error .notAPngCodecFile
    else if version ≠ VERSION then .error .pngVersionErr
    else
      let headerTotal := HEADER_PREFIX + fnameLen
      if stream.length < headerTotal then .error .pngCorrupted
      else .ok (version, dataLen, crc, (stream.drop HEADER_PREFIX).take fnameLen,
                headerTotal)

/-- Model of codec_png._square_dimensions with the float ceil-sqrt and
    ceil-division replaced by their exact integer counterparts. -/
def squareDimensions (numPixels : Nat) : Nat × Nat :=
  let width := ceilSqrt numPixels
  (width, ceilDiv numPixels width)

structure PngEncodeResult where
  stream : Bytes
  image_width : Nat
  image_height : Nat
  input_size : Nat
deriving DecidableEq

structure PngDecodeResult where
  data : Bytes
  filename : Bytes
  data_size : Nat
deriving DecidableEq

/-- Model of codec_png.encode.  The PNG container written by PIL is
    lossless, so the result carries the flat pixel byte stream directly;
    salt and nonce stand for the random draws inside encryption.encrypt. -/
def encode (A : AEAD) (salt nonce : Bytes) (data fname : Bytes)
    (password : Option String) : PngEncodeResult :=
  let fname' := if fname.isEmpty then defaultFilename else fname
  let payload0 := buildHeader data fname' ++ data
  let payload1 := if pwTruthy password then
      Encryption.encryptRaw A salt nonce payload0 (password.getD "")
    else payload0
  let rem := payload1.length % 3
  let payload2 := payload1 ++ List.replicate (if rem = 0 then 0 else 3 - rem) 0
  let numPixels := payload2.length / 3
  let dims := squareDimensions numPixels
  let payload3 := payload2 ++ List.replicate ((dims.1 * dims.2 - numPixels) * 3) 0
  { stream := payload3, image_width := dims.1, image_height := dims.2,
    input_size := data.length }

/-- Length of the (possibly sealed) header-plus-payload buffer built by
    encode before padding (codec_png.encode up to line 184). -/
def payloadLength (A : AEAD) (salt nonce : Bytes) (data fname : Bytes)
    (password : Option String) : Nat :=
  let fname' := if fname.isEmpty then defaultFilename else fname
  let payload0 := buildHeader data fname' ++ data
  (if pwTruthy password then
    Encryption.encryptRaw A salt nonce payload0 (password.getD "")
  else payload0).length

/-- Pixel count computed by encode: the payload length padded to a multiple
    of 3 and divided by 3 (codec_png.encode lines 185-190). -/
def pixelCount (A : AEAD) (salt nonce : Bytes) (data fname : Bytes)
    (password : Option String) : Nat :=
  let L := payloadLength A salt nonce data fname password
  (L + (if L % 3 = 0 then 0 else 3 - L % 3)) / 3

/-- Model of codec_png.decode over the flat pixel byte stream recovered from
    the PNG.  Both decryption failures and a missing password on encrypted
    input are wrapped into the pngCorrupted error, as in the source. -/
def decode (A : AEAD) (stream0 : Bytes) (password : Option String) :
    Except Err PngDecodeResult :=
  let streamE : Except Err Bytes :=
    if Encryption.isEncrypted stream0 then
      if !pwTruthy password then .error .pngCorrupted
      else
        match Encryption.decrypt A stream0 (password.getD "") with
        | .ok s => .ok s
        | .error _ => .error .pngCorrupted
    else .ok stream0
  match streamE with
  | .error e => .error e
  | .ok stream =>
    match parseHeader stream with
    | .error e => .error e
    | .ok (_, dataLen, expectedCrc, fname, headerSize) =>
      if headerSize + dataLen > stream.length then .error .pngCorrupted
      else
        let data := (stream.drop headerSize).take dataLen
        if crc32 data ≠ expectedCrc then .error .pngCorrupted
        else .ok ⟨data, fname, dataLen⟩

end CodecPng

namespace CodecMp3

/-- Audio codec block magic b"SPXLV2\x00\x00". -/
def MAGIC : Bytes := [83, 80, 88, 76, 86, 50, 0, 0]

/-- End-of-block marker b"SPXLEND\x00". -/
def TAIL_MAGIC : Bytes := [83, 80, 88, 76, 69, 78, 68, 0]

def VERSION : Nat := 2
def MAGIC_LEN : Nat := 8
def TAIL_LEN : Nat := 8
def MAX_FNAME_BYTES : Nat := 255
def HEADER_FIXED : Nat := 16

/-- UTF-8 bytes of the default image filename "image.png". -/
def defaultImageName : Bytes := [105, 109, 97, 103, 101, 46, 112, 110, 103]

structure EncodeResult where
  mp3_bytes : Bytes
  mp3_size : Nat
  image_size : Nat
  total_size : Nat
deriving DecidableEq

structure DecodeResult where
  image_data : Bytes
  image_filename : Bytes
  image_size : Nat
deriving DecidableEq

/-- Model of codec_mp3._build_block; the filename argument is the UTF-8 byte
    sequence of the Python string. -/
def buildBlock (A : AEAD) (salt nonce : Bytes) (imageBytes fname : Bytes)
    (password : Option String) : Bytes :=
  let fnameBytes := fname.take MAX_FNAME_BYTES
  let header := MAGIC ++ u16be VERSION ++ u64be imageBytes.length ++
    u32be (crc32 imageBytes) ++ u16be fnameBytes.length ++ fnameBytes
  let payload := header ++ imageBytes
  let payload' := if pwTruthy password then
      Encryption.encryptRaw A salt nonce payload (password.getD "")
    else payload
  payload' ++ TAIL_MAGIC

/-- Second phase of codec_mp3._find_and_parse_block (from the comment "Now
    parse the (possibly decrypted) block" on): header fields, filename,
    image slice and CRC verification over the located block bytes. -/
def parseBody (dtp : Bytes) : Except Err (Bytes × Bytes) :=
  if MAGIC_LEN + HEADER_FIXED > dtp.length then .error .corruptedFile
  else
    let version := beVal ((dtp.drop 8).take 2)
    let imgSize := beVal ((dtp.drop 10).take 8)
    let expectedCrc := beVal ((dtp.drop 18).take 4)
    let fnameLen := beVal ((dtp.drop 22).take 2)
    if version ≠ VERSION then .error .unsupportedVersion
    else if 24 + fnameLen > dtp.length then .error .corruptedFile
    else
      let fname := (dtp.drop 24).take fnameLen
      if 24 + fnameLen + imgSize > dtp.length then .error .corruptedFile
      else
        let imageBytes := (dtp.drop (24 + fnameLen)).take imgSize
        if crc32 imageBytes ≠ expectedCrc then .error .corruptedFile
        else .ok (imageBytes, fname)

/-- Model of codec_mp3._find_and_parse_block (locate phase; the parse phase
    is parseBody). -/
def findAndParseBlock (A : AEAD) (data : Bytes) (password : Option String) :
    Except Err (Bytes × Bytes) :=
  if !TAIL_MAGIC.isSuffixOf data then .error .notEncoded
  else
    let tailStart := data.length - TAIL_LEN
    let encMagicPos := rfind data Encryption.MAGIC tailStart
    let magicPos := rfind data MAGIC tailStart
    let encBranch : Nat → Except Err Bytes := fun e =>
      if !pwTruthy password then .error .corruptedFile
      else
        match Encryption.decrypt A ((data.drop e).take (tailStart - e))
              (password.getD "") with
        | .ok s => .ok s
        | .error _ => .error .corruptedFile
    let blockE : Except Err Bytes :=
      match encMagicPos, magicPos with
      | some e, none => encBranch e
      | some e, some m => if e > m then encBranch e
                          else .ok ((data.drop m).take (tailStart - m))
      | none, some m => .ok ((data.drop m).take (tailStart - m))
      | none, none => .error .corruptedFile
    match blockE with
    | .error er => .error er
    | .ok dtp => parseBody dtp

/-- Model of codec_mp3.encode, including the strip of a previously embedded
    block. -/
def encode (A : AEAD) (salt nonce : Bytes) (mp3Bytes imageBytes fname : Bytes)
    (password : Option String) : EncodeResult :=
  let fname' := if fname.isEmpty then defaultImageName else fname
  let host := if TAIL_MAGIC.isSuffixOf mp3Bytes then
      match rfind mp3Bytes MAGIC mp3Bytes.length with
      | some m => mp3Bytes.take m
      | none => mp3Bytes
    else mp3Bytes
  let block := buildBlock A salt nonce imageBytes fname' password
  let output := host ++ block
  { mp3_bytes := output, mp3_size := host.length,
    image_size := imageBytes.length, total_size := output.length }

/-- Model of codec_mp3.decode. -/
def decode (A : AEAD) (mp3Bytes : Bytes) (password : Option String) :
    Except Err DecodeResult :=
  match findAndParseBlock A mp3Bytes password with
  | .error e => .error e
  | .ok (imageBytes, fname) => .ok ⟨imageBytes, fname, imageBytes.length⟩

end CodecMp3

/-! ### Basic lemmas about the byte-level primitives -/

theorem beVal_u16be {n : Nat} (h : n < 2 ^ 16) : beVal (u16be n) = n := by
  simp only [u16be, beVal, List.foldl]
  omega

theorem beVal_u32be {n : Nat} (h : n < 2 ^ 32) : beVal (u32be n) = n := by
  simp only [u32be, beVal, List.foldl]
  omega

theorem beVal_u64be {n : Nat} (h : n < 2 ^ 64) : beVal (u64be n) = n := by
  simp only [u64be, beVal, List.foldl]
  omega

theorem u16be_length (n : Nat) : (u16be n).length = 2 := rfl

theorem u32be_length (n : Nat) : (u32be n).length = 4 := rfl

theorem u64be_length (n : Nat) : (u64be n).length = 8 := rfl

theorem crcStep_lt {c : Nat} (h : c < 2 ^ 32) : crcStep c < 2 ^ 32 := by
  unfold crcStep
  split
  · exact Nat.xor_lt_two_pow (by omega) (by norm_num)
  · omega

theorem crcByte_lt {c : Nat} (b : Nat) (h : c < 2 ^ 32) : crcByte c b < 2 ^ 32 := by
  unfold crcByte
  have base : c ^^^ b % 256 < 2 ^ 32 :=
    Nat.xor_lt_two_pow h (lt_of_lt_of_le (Nat.mod_lt _ (by norm_num)) (by norm_num))
  have iter : ∀ k x, x < 2 ^ 32 → crcStep^[k] x < 2 ^ 32 := by
    intro k
    induction k with
    | zero => intro x hx; simpa using hx
    | succ k ih =>
      intro x hx
      rw [Function.iterate_succ_apply]
      exact ih _ (crcStep_lt hx)
  exact iter 8 _ base

theorem crc32_lt (data : Bytes) : crc32 data < 2 ^ 32 := by
  unfold crc32
  have h : ∀ (l : Bytes) (c : Nat), c < 2 ^ 32 → List.foldl crcByte c l < 2 ^ 32 := by
    intro l
    induction l with
    | nil => intro c hc; simpa using hc
    | cons b t ih => intro c hc; exact ih _ (crcByte_lt b hc)
  exact Nat.xor_lt_two_pow (h data _ (by norm_num)) (by norm_num)

/-! ### Slice lemmas -/

theorem drop_through {a : Bytes} (b : Bytes) {i : Nat} (h : a.length ≤ i) :
    (a ++ b).drop i = b.drop (i - a.length) := by
  rw [List.drop_append_eq_append_drop, List.drop_eq_nil_of_le h, List.nil_append]

theorem dropTake_field {p : Bytes} (f s : Bytes) {i n : Nat}
    (hp : p.length = i) (hn : f.length = n) :
    ((p ++ (f ++ s)).drop i).take n = f := by
  subst hp; subst hn
  rw [List.drop_left, List.take_left]

theorem take_field {f : Bytes} (s : Bytes) {n : Nat} (hn : f.length = n) :
    (f ++ s).take n = f :=
  List.take_left' hn

theorem drop_field {p : Bytes} (s : Bytes) {i : Nat} (hp : p.length = i) :
    (p ++ s).drop i = s :=
  List.drop_left' hp

/-! ### Lemmas about matchesAt and rfind -/

theorem matchesAt_true_iff {hay needle : Bytes} {i : Nat} :
    matchesAt hay needle i = true ↔ (hay.drop i).take needle.length = needle := by
  simp [matchesAt]

theorem matchesAt_here {p : Bytes} (needle s : Bytes) {i : Nat} (hp : p.length = i) :
    matchesAt (p ++ (needle ++ s)) needle i = true := by
  rw [matchesAt_true_iff]
  exact dropTake_field needle s hp rfl

theorem matchesAt_shift {a : Bytes} (b needle : Bytes) {q : Nat} (h : a.length ≤ q) :
    matchesAt (a ++ b) needle q = matchesAt b needle (q - a.length) := by
  unfold matchesAt
  rw [drop_through b h]

theorem matchesAt_big {hay needle : Bytes} {q : Nat} (hne : needle ≠ [])
    (h : hay.length ≤ q) : matchesAt hay needle q = false := by
  unfold matchesAt
  rw [List.drop_eq_nil_of_le h]
  simp only [List.take_nil, beq_eq_false_iff_ne, ne_eq]
  exact fun he => hne he.symm

theorem rfindLoop_eq_some {hay needle : Bytes} {p top : Nat}
    (h1 : matchesAt hay needle p = true)
    (h2 : ∀ q, p < q → matchesAt hay needle q = false)
    (hp : p ≤ top) : rfindLoop hay needle top = some p := by
  induction top with
  | zero =>
    have : p = 0 := Nat.le_zero.mp hp
    subst this
    simp [rfindLoop, h1]
  | succ t ih =>
    by_cases hpt : p = t + 1
    · subst hpt
      simp [rfindLoop, h1]
    · have hple : p ≤ t := by omega
      have hfalse : matchesAt hay needle (t + 1) = false := h2 _ (by omega)
      simp [rfindLoop, hfalse]
      exact ih hple

theorem rfindLoop_sound {hay needle : Bytes} {top e : Nat}
    (h : rfindLoop hay needle top = some e) :
    matchesAt hay needle e = true ∧ e ≤ top := by
  induction top with
  | zero =>
    simp only [rfindLoop] at h
    split at h
    · cases h; exact ⟨by assumption, Nat.le_refl 0⟩
    · cases h
  | succ t ih =>
    simp only [rfindLoop] at h
    split at h
    · cases h
      exact ⟨by assumption, Nat.le_refl _⟩
    · obtain ⟨hm, hle⟩ := ih h
      exact ⟨hm, Nat.le_succ_of_le hle⟩

theorem rfind_eq_some {hay needle : Bytes} {p stop : Nat}
    (h1 : matchesAt hay needle p = true)
    (h2 : ∀ q, p < q → matchesAt hay needle q = false)
    (hlen : needle.length ≤ stop) (hp : p ≤ stop - needle.length) :
    rfind hay needle stop = some p := by
  unfold rfind
  rw [if_pos hlen]
  exact rfindLoop_eq_some h1 h2 hp

theorem rfind_sound {hay needle : Bytes} {stop e : Nat}
    (h : rfind hay needle stop = some e) : matchesAt hay needle e = true := by
  unfold rfind at h
  split at h
  · exact (rfindLoop_sound h).1
  · cases h

/-! ### Properties of the toy AEAD instance -/

theorem toyAead_tag_length (k n pt : Bytes) :
    ((toyAead.enc k n pt).2).length = 16 := by
  simp [toyAead, toyTag]

theorem toyAead_correct (k n pt : Bytes) :
    toyAead.dec k n (toyAead.enc k n pt).1 (toyAead.enc k n pt).2 = some pt := by
  simp [toyAead]
  ext i x
  simp [Nat.xor_assoc]

/-! ### The well-formed-header parse lemma for the image codec -/

theorem pngParseHeader_ok (d F rest : Bytes) (hFl : F.length ≤ 255)
    (hd : d.length < 2 ^ 64) :
    CodecPng.parseHeader (CodecPng.buildHeader d F ++ rest) =
      Except.ok (1, d.length, crc32 d, F, 22 + F.length) := by
  have hTake : F.take CodecPng.MAX_FNAME_LEN = F :=
    List.take_of_length_le (by simpa [CodecPng.MAX_FNAME_LEN] using hFl)
  have hB : CodecPng.buildHeader d F ++ rest =
      CodecPng.MAGIC ++ (u32be CodecPng.VERSION ++ (u64be d.length ++
        (u32be (crc32 d) ++ (u16be F.length ++ (F ++ rest))))) := by
    simp [CodecPng.buildHeader, hTake, List.append_assoc]
  have hlenS : (CodecPng.buildHeader d F ++ rest).length = 22 + F.length + rest.length := by
    rw [hB]; simp [CodecPng.MAGIC, u32be, u64be, u16be]; omega
  have f1 : (CodecPng.buildHeader d F ++ rest).take 4 = CodecPng.MAGIC := by
    rw [hB, List.take_left' (show (CodecPng.MAGIC : Bytes).length = 4 by rfl)]
  have f2 : ((CodecPng.buildHeader d F ++ rest).drop 4).take 4 = u32be CodecPng.VERSION := by
    rw [hB, List.drop_left' (show (CodecPng.MAGIC : Bytes).length = 4 by rfl),
      List.take_left' (show (u32be CodecPng.VERSION).length = 4 by rfl)]
  have f3 : ((CodecPng.buildHeader d F ++ rest).drop 8).take 8 = u64be d.length := by
    rw [hB, ← List.append_assoc,
      List.drop_left' (show (CodecPng.MAGIC ++ u32be CodecPng.VERSION).length = 8 by rfl),
      List.take_left' (show (u64be d.length).length = 8 by rfl)]
  have f4 : ((CodecPng.buildHeader d F ++ rest).drop 16).take 4 = u32be (crc32 d) := by
    rw [hB, ← List.append_assoc, ← List.append_assoc,
      List.drop_left'
        (show (CodecPng.MAGIC ++ u32be CodecPng.VERSION ++ u64be d.length).length = 16 by rfl),
      List.take_left' (show (u32be (crc32 d)).length = 4 by rfl)]
  have f5 : ((CodecPng.buildHeader d F ++ rest).drop 20).take 2 = u16be F.length := by
    rw [hB, ← List.append_assoc, ← List.append_assoc, ← List.append_assoc,
      List.drop_left'
        (show (CodecPng.MAGIC ++ u32be CodecPng.VERSION ++ u64be d.length ++
          u32be (crc32 d)).length = 20 by rfl),
      List.take_left' (show (u16be F.length).length = 2 by rfl)]
  have f6 : (CodecPng.buildHeader d F ++ rest).drop 22 = F ++ rest := by
    rw [hB, ← List.append_assoc, ← List.append_assoc, ← List.append_assoc, ← List.append_assoc,
      List.drop_left'
        (show (CodecPng.MAGIC ++ u32be CodecPng.VERSION ++ u64be d.length ++
          u32be (crc32 d) ++ u16be F.length).length = 22 by rfl)]
  have hv : beVal (u32be CodecPng.VERSION) = CodecPng.VERSION :=
    beVal_u32be (by norm_num [CodecPng.VERSION])
  have hfl : beVal (u16be F.length) = F.length := beVal_u16be (by omega)
  simp only [CodecPng.parseHeader, CodecPng.HEADER_PREFIX]
  rw [if_neg (by omega), f1, if_neg (by simp), f2, hv, if_neg (by simp [CodecPng.VERSION]),
    f5, hfl, if_neg (by omega), f3, beVal_u64be hd, f4, beVal_u32be (crc32_lt d), f6,
    List.take_left]
  simp [CodecPng.VERSION]

/-! ### The well-formed-body parse lemma for the audio codec -/

theorem mp3Body_shape (d F : Bytes) (hFl : F.length ≤ 255) :
    CodecMp3.MAGIC ++ u16be CodecMp3.VERSION ++ u64be d.length ++
      u32be (crc32 d) ++ u16be (F.take CodecMp3.MAX_FNAME_BYTES).length ++
      F.take CodecMp3.MAX_FNAME_BYTES ++ d =
    CodecMp3.MAGIC ++ (u16be CodecMp3.VERSION ++ (u64be d.length ++
      (u32be (crc32 d) ++ (u16be F.length ++ (F ++ d))))) := by
  have hTake : F.take CodecMp3.MAX_FNAME_BYTES = F :=
    List.take_of_length_le (by simpa [CodecMp3.MAX_FNAME_BYTES] using hFl)
  simp [hTake, List.append_assoc]

theorem mp3ParseBody_ok (d F : Bytes) (hFl : F.length ≤ 255)
    (hd : d.length < 2 ^ 64) :
    CodecMp3.parseBody (CodecMp3.MAGIC ++ (u16be CodecMp3.VERSION ++
      (u64be d.length ++ (u32be (crc32 d) ++ (u16be F.length ++ (F ++ d)))))) =
      Except.ok (d, F) := by
  set body := CodecMp3.MAGIC ++ (u16be CodecMp3.VERSION ++
      (u64be d.length ++ (u32be (crc32 d) ++ (u16be F.length ++ (F ++ d))))) with hbody
  have hlenS : body.length = 24 + F.length + d.length := by
    rw [hbody]; simp [CodecMp3.MAGIC, u16be, u32be, u64be]; omega
  have f2 : (body.drop 8).take 2 = u16be CodecMp3.VERSION := by
    rw [hbody, List.drop_left' (show (CodecMp3.MAGIC : Bytes).length = 8 by rfl),
      List.take_left' (show (u16be CodecMp3.VERSION).length = 2 by rfl)]
  have f3 : (body.drop 10).take 8 = u64be d.length := by
    rw [hbody, ← List.append_assoc,
      List.drop_left' (show (CodecMp3.MAGIC ++ u16be CodecMp3.VERSION).length = 10 by rfl),
      List.take_left' (show (u64be d.length).length = 8 by rfl)]
  have f4 : (body.drop 18).take 4 = u32be (crc32 d) := by
    rw [hbody, ← List.append_assoc, ← List.append_assoc,
      List.drop_left'
        (show (CodecMp3.MAGIC ++ u16be CodecMp3.VERSION ++ u64be d.length).length = 18 by rfl),
      List.take_left' (show (u32be (crc32 d)).length = 4 by rfl)]
  have f5 : (body.drop 22).take 2 = u16be F.length := by
    rw [hbody, ← List.append_assoc, ← List.append_assoc, ← List.append_assoc,
      List.drop_left'
        (show (CodecMp3.MAGIC ++ u16be CodecMp3.VERSION ++ u64be d.length ++
          u32be (crc32 d)).length = 22 by rfl),
      List.take_left' (show (u16be F.length).length = 2 by rfl)]
  have f6 : body.drop 24 = F ++ d := by
    rw [hbody, ← List.append_assoc, ← List.append_assoc, ← List.append_assoc,
      ← List.append_assoc,
      List.drop_left'
        (show (CodecMp3.MAGIC ++ u16be CodecMp3.VERSION ++ u64be d.length ++
          u32be (crc32 d) ++ u16be F.length).length = 24 by rfl)]
  have f7 : body.drop (24 + F.length) = d := by
    rw [hbody, ← List.append_assoc, ← List.append_assoc, ← List.append_assoc,
      ← List.append_assoc, ← List.append_assoc,
      List.drop_left'
        (show (CodecMp3.MAGIC ++ u16be CodecMp3.VERSION ++ u64be d.length ++
          u32be (crc32 d) ++ u16be F.length ++ F).length = 24 + F.length by
            simp [CodecMp3.MAGIC, u16be, u32be, u64be]; omega)]
  have hver : beVal (u16be CodecMp3.VERSION) = CodecMp3.VERSION :=
    beVal_u16be (by norm_num [CodecMp3.VERSION])
  have hfl : beVal (u16be F.length) = F.length := beVal_u16be (by omega)
  simp only [CodecMp3.parseBody, CodecMp3.MAGIC_LEN, CodecMp3.HEADER_FIXED]
  rw [if_neg (by omega), f2, hver, if_neg (by simp), f5, hfl, if_neg (by omega),
    f3, beVal_u64be hd, if_neg (by omega), f6, List.take_left, f7, f4,
    beVal_u32be (crc32_lt d), List.take_length, if_neg (by simp)]

/-! ### Normal forms of the audio-codec encode output -/

theorem isSuffixOf_append_right (x t : Bytes) : t.isSuffixOf (x ++ t) = true := by
  rw [List.isSuffixOf_iff_suffix]
  exact List.suffix_append x t

theorem matchesAt_zero (needle s : Bytes) : matchesAt (needle ++ s) needle 0 = true := by
  unfold matchesAt
  rw [List.drop_zero, List.take_left]
  exact beq_self_eq_true needle

theorem mp3Encode_carrier (A : AEAD) (s n host d F : Bytes) (pw : Option String)
    (hTail : CodecMp3.TAIL_MAGIC.isSuffixOf host = false) (hF : F ≠ []) :
    (CodecMp3.encode A s n host d F pw).mp3_bytes =
      host ++ CodecMp3.buildBlock A s n d F pw := by
  have hemp : F.isEmpty = false := by
    cases F with
    | nil => exact absurd rfl hF
    | cons a t => rfl
  simp [CodecMp3.encode, hTail, hemp]

theorem mp3BuildBlock_plain (A : AEAD) (s n d F : Bytes) (hFl : F.length ≤ 255) :
    CodecMp3.buildBlock A s n d F none =
      (CodecMp3.MAGIC ++ (u16be CodecMp3.VERSION ++ (u64be d.length ++
        (u32be (crc32 d) ++ (u16be F.length ++ (F ++ d)))))) ++
        CodecMp3.TAIL_MAGIC := by
  have hTake : F.take CodecMp3.MAX_FNAME_BYTES = F :=
    List.take_of_length_le (by simpa [CodecMp3.MAX_FNAME_BYTES] using hFl)
  simp [CodecMp3.buildBlock, pwTruthy, hTake, List.append_assoc]

theorem pwTruthy_some {p : String} (hp : p ≠ "") : pwTruthy (some p) = true := by
  have h : p.isEmpty = false := by
    cases he : p.isEmpty with
    | false => rfl
    | true => exact absurd ((String.isEmpty_iff p).mp he) hp
  simp [pwTruthy, h]

theorem mp3BuildBlock_enc (A : AEAD) (s n d F : Bytes) (p : String)
    (hFl : F.length ≤ 255) (hp : p ≠ "") :
    CodecMp3.buildBlock A s n d F (some p) =
      Encryption.encryptRaw A s n (CodecMp3.MAGIC ++ (u16be CodecMp3.VERSION ++
        (u64be d.length ++ (u32be (crc32 d) ++ (u16be F.length ++ (F ++ d)))))) p ++
        CodecMp3.TAIL_MAGIC := by
  have hTake : F.take CodecMp3.MAX_FNAME_BYTES = F :=
    List.take_of_length_le (by simpa [CodecMp3.MAX_FNAME_BYTES] using hFl)
  simp [CodecMp3.buildBlock, pwTruthy_some hp, hTake, List.append_assoc]

/-! ### Locating the trailing block -/

theorem mp3Locate_plain (A : AEAD) (host body : Bytes) (pw : Option String)
    (h8 : 8 ≤ body.length)
    (hm0 : matchesAt (body ++ CodecMp3.TAIL_MAGIC) CodecMp3.MAGIC 0 = true)
    (hM : ∀ q, 0 < q →
      matchesAt (body ++ CodecMp3.TAIL_MAGIC) CodecMp3.MAGIC q = false)
    (hE : ∀ q, matchesAt (body ++ CodecMp3.TAIL_MAGIC) Encryption.MAGIC q = false) :
    CodecMp3.findAndParseBlock A (host ++ (body ++ CodecMp3.TAIL_MAGIC)) pw =
      CodecMp3.parseBody body := by
  set data := host ++ (body ++ CodecMp3.TAIL_MAGIC) with hdata
  have hsuf : CodecMp3.TAIL_MAGIC.isSuffixOf data = true := by
    rw [hdata, ← List.append_assoc]
    exact isSuffixOf_append_right _ _
  have hlen : data.length = host.length + body.length + 8 := by
    rw [hdata]
    simp [CodecMp3.TAIL_MAGIC]
    omega
  have htS : data.length - CodecMp3.TAIL_LEN = host.length + body.length := by
    rw [hlen]
    simp [CodecMp3.TAIL_LEN]
  have hmatch : matchesAt data CodecMp3.MAGIC host.length = true := by
    rw [hdata, matchesAt_shift _ _ (Nat.le_refl _), Nat.sub_self]
    exact hm0
  have hfindM : rfind data CodecMp3.MAGIC (data.length - CodecMp3.TAIL_LEN) =
      some host.length := by
    apply rfind_eq_some hmatch
    · intro q hq
      rw [hdata, matchesAt_shift _ _ (by omega)]
      exact hM _ (by omega)
    · rw [htS]
      simp [CodecMp3.MAGIC]
      omega
    · rw [htS]
      simp [CodecMp3.MAGIC]
      omega
  have harith : data.length - CodecMp3.TAIL_LEN - host.length = body.length := by
    rw [htS]
    omega
  have hslice : (data.drop host.length).take (data.length - CodecMp3.TAIL_LEN - host.length)
      = body := by
    rw [harith, hdata, List.drop_left, List.take_left]
  cases hfE : rfind data Encryption.MAGIC (data.length - CodecMp3.TAIL_LEN) with
  | none =>
    simp only [CodecMp3.findAndParseBlock, hsuf, Bool.not_true, hfindM, hfE, hslice]
    simp
  | some e =>
    have hsound := rfind_sound hfE
    have hle : ¬ e > host.length := by
      intro hgt
      rw [hdata, matchesAt_shift _ _ (by omega)] at hsound
      rw [hE (e - host.length)] at hsound
      exact Bool.false_ne_true hsound
    simp only [CodecMp3.findAndParseBlock, hsuf, Bool.not_true, hfindM, hfE, hslice]
    rw [if_neg hle]
    simp

theorem mp3Locate_enc (A : AEAD) (host body : Bytes) (pw : Option String)
    (h8 : 8 ≤ body.length)
    (hm0 : matchesAt (body ++ CodecMp3.TAIL_MAGIC) Encryption.MAGIC 0 = true)
    (hE : ∀ q, 0 < q →
      matchesAt (body ++ CodecMp3.TAIL_MAGIC) Encryption.MAGIC q = false)
    (hM : ∀ q, matchesAt (body ++ CodecMp3.TAIL_MAGIC) CodecMp3.MAGIC q = false) :
    CodecMp3.findAndParseBlock A (host ++ (body ++ CodecMp3.TAIL_MAGIC)) pw =
      if !pwTruthy pw then .error .corruptedFile
      else
        match Encryption.decrypt A body (pw.getD "") with
        | .ok s => CodecMp3.parseBody s
        | .error _ => .error .corruptedFile := by
  set data := host ++ (body ++ CodecMp3.TAIL_MAGIC) with hdata
  have hsuf : CodecMp3.TAIL_MAGIC.isSuffixOf data = true := by
    rw [hdata, ← List.append_assoc]
    exact isSuffixOf_append_right _ _
  have hlen : data.length = host.length + body.length + 8 := by
    rw [hdata]
    simp [CodecMp3.TAIL_MAGIC]
    omega
  have htS : data.length - CodecMp3.TAIL_LEN = host.length + body.length := by
    rw [hlen]
    simp [CodecMp3.TAIL_LEN]
  have hmatch : matchesAt data Encryption.MAGIC host.length = true := by
    rw [hdata, matchesAt_shift _ _ (Nat.le_refl _), Nat.sub_self]
    exact hm0
  have hfindE : rfind data Encryption.MAGIC (data.length - CodecMp3.TAIL_LEN) =
      some host.length := by
    apply rfind_eq_some hmatch
    · intro q hq
      rw [hdata, matchesAt_shift _ _ (by omega)]
      exact hE _ (by omega)
    · rw [htS]
      simp [Encryption.MAGIC]
      omega
    · rw [htS]
      simp [Encryption.MAGIC]
      omega
  have harith : data.length - CodecMp3.TAIL_LEN - host.length = body.length := by
    rw [htS]
    omega
  have hslice : (data.drop host.length).take (data.length - CodecMp3.TAIL_LEN - host.length)
      = body := by
    rw [harith, hdata, List.drop_left, List.take_left]
  cases hfM : rfind data CodecMp3.MAGIC (data.length - CodecMp3.TAIL_LEN) with
  | none =>
    simp only [CodecMp3.findAndParseBlock, hsuf, Bool.not_true, hfindE, hfM, hslice]
    cases hpw : pwTruthy pw with
    | false => simp
    | true =>
      cases hde : Encryption.decrypt A body (pw.getD "") with
      | ok s => simp [hde]
      | error e => simp [hde]
  | some m =>
    have hsound := rfind_sound hfM
    have hlt : m < host.length := by
      rcases Nat.lt_trichotomy m host.length with h | h | h
      · exact h
      · subst h
        rw [hdata, matchesAt_shift _ _ (Nat.le_refl _), Nat.sub_self] at hsound
        rw [hM 0] at hsound
        exact absurd hsound (Bool.false_ne_true)
      · rw [hdata, matchesAt_shift _ _ (by omega)] at hsound
        rw [hM (m - host.length)] at hsound
        exact absurd hsound (Bool.false_ne_true)
    simp only [CodecMp3.findAndParseBlock, hsuf, Bool.not_true, hfindE, hfM, hslice]
    rw [if_pos hlt]
    cases hpw : pwTruthy pw with
    | false => simp
    | true =>
      cases hde : Encryption.decrypt A body (pw.getD "") with
      | ok s => simp [hde]
      | error e => simp [hde]

/-! ### Normal forms of the image-codec encode output -/

theorem append_pad_pad (H d : Bytes) (a b : Nat) :
    ∃ k, ((H ++ d) ++ List.replicate a 0) ++ List.replicate b 0 =
      H ++ (d ++ List.replicate k 0) :=
  ⟨a + b, by rw [List.replicate_add]; simp [List.append_assoc]⟩

theorem append_pad_pad1 (E : Bytes) (a b : Nat) :
    ∃ k, (E ++ List.replicate a 0) ++ List.replicate b 0 =
      E ++ List.replicate k 0 :=
  ⟨a + b, by rw [List.replicate_add, List.append_assoc]⟩

theorem pngEncode_stream_plain (A : AEAD) (s n d F : Bytes) (hF : F ≠ []) :
    ∃ k, (CodecPng.encode A s n d F none).stream =
      CodecPng.buildHeader d F ++ (d ++ List.replicate k 0) := by
  have hemp : F.isEmpty = false := by
    cases F with
    | nil => exact absurd rfl hF
    | cons a t => rfl
  simp only [CodecPng.encode, pwTruthy, hemp, Bool.false_eq_true, if_false]
  exact append_pad_pad _ _ _ _

theorem pngEncode_stream_enc (A : AEAD) (s n d F : Bytes) (p : String)
    (hF : F ≠ []) (hp : p ≠ "") :
    ∃ k, (CodecPng.encode A s n d F (some p)).stream =
      Encryption.encryptRaw A s n (CodecPng.buildHeader d F ++ d) p ++
        List.replicate k 0 := by
  have hemp : F.isEmpty = false := by
    cases F with
    | nil => exact absurd rfl hF
    | cons a t => rfl
  simp only [CodecPng.encode, pwTruthy_some hp, hemp, Bool.false_eq_true, if_false,
    if_true, Option.getD_some]
  exact append_pad_pad1 _ _ _

/-! ### Detecting the encryption envelope -/

theorem isEncrypted_pngPlain (d F x : Bytes) :
    Encryption.isEncrypted (CodecPng.buildHeader d F ++ x) = false := by
  simp [Encryption.isEncrypted, Encryption.MAGIC, CodecPng.buildHeader, CodecPng.MAGIC,
    u32be, CodecPng.VERSION, List.isPrefixOf, List.append_assoc]

theorem isEncrypted_encryptRaw (A : AEAD) (s n pt x : Bytes) (p : String) :
    Encryption.isEncrypted (Encryption.encryptRaw A s n pt p ++ x) = true := by
  simp [Encryption.isEncrypted, Encryption.encryptRaw, Encryption.MAGIC,
    List.isPrefixOf, List.append_assoc]

/-! ### Behaviour of decrypt on a well-formed envelope (plus trailing bytes) -/

theorem decrypt_layout (A : AEAD) (salt nonce ct tag rest : Bytes) (p : String)
    (hp : p ≠ "") (hs : salt.length = 16) (hn : nonce.length = 16)
    (ht : tag.length = 16) (hct : ct.length < 2 ^ 64) :
    Encryption.decrypt A
      (Encryption.MAGIC ++ (salt ++ (nonce ++ (tag ++ (u64be ct.length ++
        (ct ++ rest)))))) p =
      match A.dec (A.deriveKey p salt) nonce ct tag with
      | none => .error .decryptionFailed
      | some pt => .ok pt := by
  set e := Encryption.MAGIC ++ (salt ++ (nonce ++ (tag ++ (u64be ct.length ++
    (ct ++ rest))))) with he
  have hlen : e.length = 64 + ct.length + rest.length := by
    rw [he]
    simp [Encryption.MAGIC, u64be, hs, hn, ht]
    omega
  have f0 : e.take 8 = Encryption.MAGIC := by
    rw [he, List.take_left' (show (Encryption.MAGIC : Bytes).length = 8 by rfl)]
  have f1 : (e.drop 8).take 16 = salt := by
    rw [he, List.drop_left' (show (Encryption.MAGIC : Bytes).length = 8 by rfl),
      List.take_left' hs]
  have f2 : (e.drop 24).take 16 = nonce := by
    rw [he, ← List.append_assoc,
      List.drop_left' (show (Encryption.MAGIC ++ salt).length = 24 by
        simp [Encryption.MAGIC, hs]),
      List.take_left' hn]
  have f3 : (e.drop 40).take 16 = tag := by
    rw [he, ← List.append_assoc, ← List.append_assoc,
      List.drop_left' (show (Encryption.MAGIC ++ salt ++ nonce).length = 40 by
        simp [Encryption.MAGIC, hs, hn]),
      List.take_left' ht]
  have f4 : (e.drop 56).take 8 = u64be ct.length := by
    rw [he, ← List.append_assoc, ← List.append_assoc, ← List.append_assoc,
      List.drop_left' (show (Encryption.MAGIC ++ salt ++ nonce ++ tag).length = 56 by
        simp [Encryption.MAGIC, hs, hn, ht]),
      List.take_left' (show (u64be ct.length).length = 8 by rfl)]
  have f5 : (e.drop 64).take ct.length = ct := by
    rw [he, ← List.append_assoc, ← List.append_assoc, ← List.append_assoc,
      ← List.append_assoc,
      List.drop_left'
        (show (Encryption.MAGIC ++ salt ++ nonce ++ tag ++ u64be ct.length).length = 64 by
          simp [Encryption.MAGIC, u64be, hs, hn, ht]),
      List.take_left]
  simp only [Encryption.decrypt, Encryption.HEADER_LEN]
  rw [if_neg hp, if_neg (by omega), f0, if_neg (by simp), f1, f2, f3, f4,
    beVal_u64be hct, f5, if_neg (by simp)]

theorem decrypt_encryptRaw (A : AEAD) (salt nonce pt rest : Bytes) (p q : String)
    (hq : q ≠ "") (hs : salt.length = 16) (hn : nonce.length = 16)
    (ht : (A.enc (A.deriveKey p salt) nonce pt).2.length = 16)
    (hct : (A.enc (A.deriveKey p salt) nonce pt).1.length < 2 ^ 64) :
    Encryption.decrypt A (Encryption.encryptRaw A salt nonce pt p ++ rest) q =
      match A.dec (A.deriveKey q salt) nonce (A.enc (A.deriveKey p salt) nonce pt).1
          (A.enc (A.deriveKey p salt) nonce pt).2 with
      | none => .error .decryptionFailed
      | some out => .ok out := by
  have hshape : Encryption.encryptRaw A salt nonce pt p ++ rest =
      Encryption.MAGIC ++ (salt ++ (nonce ++ ((A.enc (A.deriveKey p salt) nonce pt).2 ++
        (u64be (A.enc (A.deriveKey p salt) nonce pt).1.length ++
          ((A.enc (A.deriveKey p salt) nonce pt).1 ++ rest))))) := by
    simp [Encryption.encryptRaw, List.append_assoc]
  rw [hshape]
  exact decrypt_layout A salt nonce _ _ rest q hq hs hn ht hct

/-! ### Helpers to discharge no-occurrence hypotheses by evaluation -/

theorem no_match_after_of_all {hay needle : Bytes} (p : Nat) (hne : needle ≠ [])
    (h : ((List.range hay.length).all
      fun q => decide (q ≤ p) || !matchesAt hay needle q) = true) :
    ∀ q, p < q → matchesAt hay needle q = false := by
  intro q hq
  by_cases hbig : hay.length ≤ q
  · exact matchesAt_big hne hbig
  · have hmem : q ∈ List.range hay.length := List.mem_range.mpr (by omega)
    have := List.all_eq_true.mp h q hmem
    simp only [Bool.or_eq_true, decide_eq_true_eq, Bool.not_eq_true'] at this
    rcases this with hle | hfalse
    · omega
    · exact hfalse

theorem no_match_at_all_of_all {hay needle : Bytes} (hne : needle ≠ [])
    (h : ((List.range hay.length).all fun q => !matchesAt hay needle q) = true) :
    ∀ q, matchesAt hay needle q = false := by
  intro q
  by_cases hbig : hay.length ≤ q
  · exact matchesAt_big hne hbig
  · have hmem : q ∈ List.range hay.length := List.mem_range.mpr (by omega)
    have := List.all_eq_true.mp h q hmem
    simpa using this

theorem pngBuildHeader_length (d F : Bytes) (hFl : F.length ≤ 255) :
    (CodecPng.buildHeader d F).length = 22 + F.length := by
  have hTake : F.take CodecPng.MAX_FNAME_LEN = F :=
    List.take_of_length_le (by simpa [CodecPng.MAX_FNAME_LEN] using hFl)
  simp [CodecPng.buildHeader, hTake, CodecPng.MAGIC, u32be, u64be, u16be]
  omega

/-- Round trip of the image codec without a password, on the conditions the
    code actually guarantees: nonempty filename of at most 255 UTF-8 bytes
    and a payload shorter than 2^64 bytes. -/
theorem png_roundtrip_plain (A : AEAD) (s n d F : Bytes) (hF : F ≠ [])
    (hFl : F.length ≤ 255) (hd : d.length < 2 ^ 64) :
    CodecPng.decode A (CodecPng.encode A s n d F none).stream none =
      Except.ok ⟨d, F, d.length⟩ := by
  obtain ⟨k, hstream⟩ := pngEncode_stream_plain A s n d F hF
  rw [hstream]
  have henc := isEncrypted_pngPlain d F (d ++ List.replicate k 0)
  have hparse := pngParseHeader_ok d F (d ++ List.replicate k 0) hFl hd
  have hlen : (CodecPng.buildHeader d F ++ (d ++ List.replicate k 0)).length =
      22 + F.length + d.length + k := by
    simp [pngBuildHeader_length d F hFl]
    omega
  have hdata : ((CodecPng.buildHeader d F ++ (d ++ List.replicate k 0)).drop
      (22 + F.length)).take d.length = d := by
    rw [List.drop_left' (pngBuildHeader_length d F hFl), List.take_left]
  simp only [CodecPng.decode, henc, Bool.false_eq_true, if_false, hparse]
  rw [if_neg (by omega), hdata, if_neg (by simp)]

/-- Round trip of the audio codec without a password, under the conditions
    the code actually guarantees: the host does not already end with the
    trailing marker, the filename is nonempty and at most 255 bytes, the
    payload is shorter than 2^64 bytes, and no spurious occurrence of either
    start magic appears inside the appended block after its first byte. -/
theorem mp3_roundtrip_plain (A : AEAD) (s n host d F : Bytes)
    (hTail : CodecMp3.TAIL_MAGIC.isSuffixOf host = false)
    (hF : F ≠ []) (hFl : F.length ≤ 255) (hd : d.length < 2 ^ 64)
    (hM : ∀ q, 0 < q →
      matchesAt (CodecMp3.buildBlock A s n d F none) CodecMp3.MAGIC q = false)
    (hE : ∀ q,
      matchesAt (CodecMp3.buildBlock A s n d F none) Encryption.MAGIC q = false) :
    CodecMp3.decode A (CodecMp3.encode A s n host d F none).mp3_bytes none =
      Except.ok ⟨d, F, d.length⟩ := by
  have hbb := mp3BuildBlock_plain A s n d F hFl
  have hcar := mp3Encode_carrier A s n host d F none hTail hF
  rw [hbb] at hM hE hcar
  set B := CodecMp3.MAGIC ++ (u16be CodecMp3.VERSION ++ (u64be d.length ++
    (u32be (crc32 d) ++ (u16be F.length ++ (F ++ d))))) with hBdef
  have h8 : 8 ≤ B.length := by
    rw [hBdef]
    simp [CodecMp3.MAGIC, u16be, u32be, u64be]
  have hm0 : matchesAt (B ++ CodecMp3.TAIL_MAGIC) CodecMp3.MAGIC 0 = true := by
    rw [hBdef, List.append_assoc]
    exact matchesAt_zero _ _
  have hloc := mp3Locate_plain A host B none h8 hm0 hM hE
  have hpb : CodecMp3.parseBody B = Except.ok (d, F) := by
    rw [hBdef]
    exact mp3ParseBody_ok d F hFl hd
  simp only [CodecMp3.decode, hcar, hloc, hpb]

/-- C1: the round-trip claim as frozen fails for a filename longer than 255
    bytes: the decoded filename is the 255-byte truncation, not the original
    name.  The decode otherwise succeeds with the exact data. -/
theorem C1_counterexample :
    CodecPng.decode toyAead (CodecPng.encode toyAead [] [] []
        (List.replicate 256 97) none).stream none =
      Except.ok ⟨[], List.replicate 255 97, 0⟩ ∧
    (List.replicate 255 97 : Bytes) ≠ List.replicate 256 97 := by
  constructor
  · decide
  · decide

/-- C1 (amended): image-codec round trip without a password returns exactly
    the data, the filename and the data length, for every payload shorter
    than 2^64 bytes and every filename whose UTF-8 encoding is nonempty and
    at most 255 bytes; the zero padding never appears in the result. -/
theorem C1_png_roundtrip (A : AEAD) (s n d F : Bytes) (hF : F ≠ [])
    (hFl : F.length ≤ 255) (hd : d.length < 2 ^ 64) :
    CodecPng.decode A (CodecPng.encode A s n d F none).stream none =
      Except.ok ⟨d, F, d.length⟩ :=
  png_roundtrip_plain A s n d F hF hFl hd

theorem C1_png_roundtrip_witness :
    CodecPng.decode toyAead (CodecPng.encode toyAead [] [] [0, 1, 255] [97] none).stream
      none = Except.ok ⟨[0, 1, 255], [97], 3⟩ :=
  C1_png_roundtrip toyAead [] [] [0, 1, 255] [97] (by decide) (by decide) (by decide)

/-- C2: the audio round-trip claim fails for a payload that itself contains
    the block start magic: the backward search locates the later, spurious
    occurrence inside the payload and decode reports a corrupted file
    instead of returning (d, f). -/
theorem C2_counterexample :
    CodecMp3.decode toyAead
      (CodecMp3.encode toyAead [] [] [1, 2] CodecMp3.MAGIC [97] none).mp3_bytes none =
      Except.error Err.corruptedFile := by
  decide

/-- C2 (amended): audio-codec round trip without a password returns exactly
    (d, f) provided the host does not already end with the trailing marker,
    the filename is nonempty with at most 255 UTF-8 bytes, the payload is
    shorter than 2^64 bytes, and neither start magic occurs inside the
    appended block after its first byte (in particular not inside d or f). -/
theorem C2_mp3_roundtrip (A : AEAD) (s n host d F : Bytes)
    (hTail : CodecMp3.TAIL_MAGIC.isSuffixOf host = false)
    (hF : F ≠ []) (hFl : F.length ≤ 255) (hd : d.length < 2 ^ 64)
    (hM : ∀ q, 0 < q →
      matchesAt (CodecMp3.buildBlock A s n d F none) CodecMp3.MAGIC q = false)
    (hE : ∀ q,
      matchesAt (CodecMp3.buildBlock A s n d F none) Encryption.MAGIC q = false) :
    CodecMp3.decode A (CodecMp3.encode A s n host d F none).mp3_bytes none =
      Except.ok ⟨d, F, d.length⟩ :=
  mp3_roundtrip_plain A s n host d F hTail hF hFl hd hM hE

theorem C2_mp3_roundtrip_witness :
    CodecMp3.decode toyAead
      (CodecMp3.encode toyAead [] [] [1, 2] [9, 8, 7] [97] none).mp3_bytes none =
      Except.ok ⟨[9, 8, 7], [97], 3⟩ :=
  C2_mp3_roundtrip toyAead [] [] [1, 2] [9, 8, 7] [97] (by decide) (by decide)
    (by decide) (by decide)
    (no_match_after_of_all 0 (by decide) (by decide))
    (no_match_at_all_of_all (by decide) (by decide))

/-- C10: decrypting an envelope with arbitrary trailing bytes appended
    succeeds and returns the same plaintext as decrypting the bare envelope:
    bytes after the declared ciphertext length are ignored.  The AEAD
    hypotheses state tag width and decryption correctness of the cipher. -/
theorem C10_decrypt_ignores_trailing (A : AEAD) (salt nonce pt s2 : Bytes)
    (p : String) (hp : p ≠ "") (hs : salt.length = 16) (hn : nonce.length = 16)
    (ht : ∀ k nn x, ((A.enc k nn x).2).length = 16)
    (hct : (A.enc (A.deriveKey p salt) nonce pt).1.length < 2 ^ 64)
    (hcorr : ∀ k nn x, A.dec k nn (A.enc k nn x).1 (A.enc k nn x).2 = some x) :
    Encryption.decrypt A (Encryption.encryptRaw A salt nonce pt p ++ s2) p =
      Except.ok pt ∧
    Encryption.decrypt A (Encryption.encryptRaw A salt nonce pt p) p =
      Except.ok pt := by
  constructor
  · rw [decrypt_encryptRaw A salt nonce pt s2 p p hp hs hn (ht _ _ _) hct, hcorr]
  · have h := decrypt_encryptRaw A salt nonce pt [] p p hp hs hn (ht _ _ _) hct
    rw [List.append_nil] at h
    rw [h, hcorr]

theorem C10_decrypt_ignores_trailing_witness :
    Encryption.decrypt toyAead (Encryption.encryptRaw toyAead (List.replicate 16 0)
        (List.replicate 16 0) [1, 2, 3] "pw" ++ [7, 7]) "pw" = Except.ok [1, 2, 3] ∧
    Encryption.decrypt toyAead (Encryption.encryptRaw toyAead (List.replicate 16 0)
        (List.replicate 16 0) [1, 2, 3] "pw") "pw" = Except.ok [1, 2, 3] :=
  C10_decrypt_ignores_trailing toyAead (List.replicate 16 0) (List.replicate 16 0)
    [1, 2, 3] [7, 7] "pw" (by decide) (by decide) (by decide)
    toyAead_tag_length (by decide) toyAead_correct

/-- C4: the claim that decrypt fails when the declared ciphertext length
    differs from the remaining byte count in either direction is refuted:
    on a buffer with one extra trailing byte (declared 3, remaining 4)
    decrypt succeeds. -/
theorem C4_counterexample :
    (Encryption.encryptRaw toyAead (List.replicate 16 0) (List.replicate 16 0)
        [1, 2, 3] "pw" ++ [0]).length - 64 = 4 ∧
    beVal (((Encryption.encryptRaw toyAead (List.replicate 16 0) (List.replicate 16 0)
        [1, 2, 3] "pw" ++ [0]).drop 56).take 8) = 3 ∧
    Encryption.decrypt toyAead (Encryption.encryptRaw toyAead (List.replicate 16 0)
        (List.replicate 16 0) [1, 2, 3] "pw" ++ [0]) "pw" = Except.ok [1, 2, 3] := by
  refine ⟨by decide, by decide, by decide⟩

/-- C4 (amended): with a non-empty password, decrypt fails with the
    DecryptionFailed kind when the buffer is shorter than the 64-byte fixed
    header, when the magic does not match, when the declared ciphertext
    length exceeds the remaining byte count, or when AEAD verification
    fails; bytes beyond the declared length are ignored, not rejected. -/
theorem C4_decrypt_failures (A : AEAD) (e salt nonce ct tag rest : Bytes)
    (p : String) (hp : p ≠ "") :
    (e.length < 64 → Encryption.decrypt A e p = Except.error Err.decryptionFailed) ∧
    (e.take 8 ≠ Encryption.MAGIC →
      Encryption.decrypt A e p = Except.error Err.decryptionFailed) ∧
    (e.length - 64 < beVal ((e.drop 56).take 8) →
      Encryption.decrypt A e p = Except.error Err.decryptionFailed) ∧
    (salt.length = 16 → nonce.length = 16 → tag.length = 16 →
      ct.length < 2 ^ 64 → A.dec (A.deriveKey p salt) nonce ct tag = none →
      Encryption.decrypt A (Encryption.MAGIC ++ (salt ++ (nonce ++ (tag ++
        (u64be ct.length ++ (ct ++ rest)))))) p =
        Except.error Err.decryptionFailed) := by
  refine ⟨?_, ?_, ?_, ?_⟩
  · intro h
    simp only [Encryption.decrypt, Encryption.HEADER_LEN]
    rw [if_neg hp, if_pos h]
  · intro h
    simp only [Encryption.decrypt, Encryption.HEADER_LEN]
    rw [if_neg hp]
    by_cases hl : e.length < 64
    · rw [if_pos hl]
    · rw [if_neg hl, if_pos h]
  · intro h
    simp only [Encryption.decrypt, Encryption.HEADER_LEN]
    rw [if_neg hp]
    by_cases hl : e.length < 64
    · rw [if_pos hl]
    · rw [if_neg hl]
      by_cases hm : e.take 8 ≠ Encryption.MAGIC
      · rw [if_pos hm]
      · rw [if_neg hm, if_pos (by
          simp only [List.length_take, List.length_drop]
          omega)]
  · intro hs hn ht hct hdec
    rw [decrypt_layout A salt nonce ct tag rest p hp hs hn ht hct, hdec]

/-! ### Decoding an encrypted image carrier -/

theorem png_decode_encrypted_ok (A : AEAD) (s n d F : Bytes) (p q : String)
    (hF : F ≠ []) (hp : p ≠ "") (hq : q ≠ "")
    (hs : s.length = 16) (hn : n.length = 16)
    (ht : ((A.enc (A.deriveKey p s) n (CodecPng.buildHeader d F ++ d)).2).length = 16)
    (hct : ((A.enc (A.deriveKey p s) n (CodecPng.buildHeader d F ++ d)).1).length < 2 ^ 64)
    (hFl : F.length ≤ 255) (hd : d.length < 2 ^ 64)
    (hdec : A.dec (A.deriveKey q s) n
        (A.enc (A.deriveKey p s) n (CodecPng.buildHeader d F ++ d)).1
        (A.enc (A.deriveKey p s) n (CodecPng.buildHeader d F ++ d)).2 =
      some (CodecPng.buildHeader d F ++ d)) :
    CodecPng.decode A (CodecPng.encode A s n d F (some p)).stream (some q) =
      Except.ok ⟨d, F, d.length⟩ := by
  obtain ⟨k, hstream⟩ := pngEncode_stream_enc A s n d F p hF hp
  rw [hstream]
  have henc := isEncrypted_encryptRaw A s n (CodecPng.buildHeader d F ++ d)
    (List.replicate k 0) p
  have hdecr := decrypt_encryptRaw A s n (CodecPng.buildHeader d F ++ d)
    (List.replicate k 0) p q hq hs hn ht hct
  rw [hdec] at hdecr
  have hparse := pngParseHeader_ok d F d hFl hd
  have hlen2 : (CodecPng.buildHeader d F ++ d).length = 22 + F.length + d.length := by
    simp [pngBuildHeader_length d F hFl]
  have hdata : ((CodecPng.buildHeader d F ++ d).drop (22 + F.length)).take d.length
      = d := by
    rw [List.drop_left' (pngBuildHeader_length d F hFl), List.take_length]
  simp only [CodecPng.decode, henc, pwTruthy_some hq, Bool.not_true,
    Bool.false_eq_true, if_false, if_true, Option.getD_some, hdecr, hparse]
  rw [if_neg (by omega), hdata, if_neg (by simp)]

theorem png_decode_encrypted_fail (A : AEAD) (s n d F : Bytes) (p q : String)
    (hF : F ≠ []) (hp : p ≠ "") (hq : q ≠ "")
    (hs : s.length = 16) (hn : n.length = 16)
    (ht : ((A.enc (A.deriveKey p s) n (CodecPng.buildHeader d F ++ d)).2).length = 16)
    (hct : ((A.enc (A.deriveKey p s) n (CodecPng.buildHeader d F ++ d)).1).length < 2 ^ 64)
    (hdec : A.dec (A.deriveKey q s) n
        (A.enc (A.deriveKey p s) n (CodecPng.buildHeader d F ++ d)).1
        (A.enc (A.deriveKey p s) n (CodecPng.buildHeader d F ++ d)).2 = none) :
    CodecPng.decode A (CodecPng.encode A s n d F (some p)).stream (some q) =
      Except.error Err.pngCorrupted := by
  obtain ⟨k, hstream⟩ := pngEncode_stream_enc A s n d F p hF hp
  rw [hstream]
  have henc := isEncrypted_encryptRaw A s n (CodecPng.buildHeader d F ++ d)
    (List.replicate k 0) p
  have hdecr := decrypt_encryptRaw A s n (CodecPng.buildHeader d F ++ d)
    (List.replicate k 0) p q hq hs hn ht hct
  rw [hdec] at hdecr
  simp only [CodecPng.decode, henc, pwTruthy_some hq, Bool.not_true,
    Bool.false_eq_true, if_false, if_true, Option.getD_some, hdecr]

/-! ### Decoding an encrypted audio carrier -/

theorem mp3_decode_encrypted (A : AEAD) (s n host d F : Bytes) (p : String)
    (pw : Option String)
    (hTail : CodecMp3.TAIL_MAGIC.isSuffixOf host = false)
    (hF : F ≠ []) (hp : p ≠ "") (hFl : F.length ≤ 255)
    (hEo : ∀ q, 0 < q →
      matchesAt (CodecMp3.buildBlock A s n d F (some p)) Encryption.MAGIC q = false)
    (hMo : ∀ q,
      matchesAt (CodecMp3.buildBlock A s n d F (some p)) CodecMp3.MAGIC q = false) :
    CodecMp3.decode A (CodecMp3.encode A s n host d F (some p)).mp3_bytes pw =
      (if !pwTruthy pw then .error .corruptedFile
       else
         match Encryption.decrypt A (Encryption.encryptRaw A s n
             (CodecMp3.MAGIC ++ (u16be CodecMp3.VERSION ++ (u64be d.length ++
               (u32be (crc32 d) ++ (u16be F.length ++ (F ++ d)))))) p)
             (pw.getD "") with
         | .ok st =>
           match CodecMp3.parseBody st with
           | .error e => .error e
           | .ok (ib, fn) => .ok ⟨ib, fn, ib.length⟩
         | .error _ => .error .corruptedFile) := by
  have hbbe := mp3BuildBlock_enc A s n d F p hFl hp
  have hcar := mp3Encode_carrier A s n host d F (some p) hTail hF
  rw [hbbe] at hcar hEo hMo
  set B := CodecMp3.MAGIC ++ (u16be CodecMp3.VERSION ++ (u64be d.length ++
    (u32be (crc32 d) ++ (u16be F.length ++ (F ++ d))))) with hBdef
  set body := Encryption.encryptRaw A s n B p with hbodydef
  have h8 : 8 ≤ body.length := by
    rw [hbodydef]
    simp [Encryption.encryptRaw, Encryption.MAGIC]
  have hm0 : matchesAt (body ++ CodecMp3.TAIL_MAGIC) Encryption.MAGIC 0 = true := by
    have hsh : body ++ CodecMp3.TAIL_MAGIC = Encryption.MAGIC ++
        (s ++ (n ++ ((A.enc (A.deriveKey p s) n B).2 ++
          (u64be (A.enc (A.deriveKey p s) n B).1.length ++
            ((A.enc (A.deriveKey p s) n B).1 ++ CodecMp3.TAIL_MAGIC))))) := by
      rw [hbodydef]
      simp [Encryption.encryptRaw, List.append_assoc]
    rw [hsh]
    exact matchesAt_zero _ _
  have hloc := mp3Locate_enc A host body pw h8 hm0 hEo hMo
  simp only [CodecMp3.decode, hcar, hloc]
  cases hpw : pwTruthy pw with
  | false => simp
  | true =>
    simp only [Bool.not_true, Bool.false_eq_true, if_false]
    cases hde : Encryption.decrypt A body (pw.getD "") with
    | ok st => simp [hde, hbodydef]
    | error e => simp [hde, hbodydef]

/-- C3: the claim that decoding an encrypted carrier with a wrong password
    fails with the DecryptionFailed kind is refuted: the image codec wraps
    the envelope failure and raises its PngCorruptedError instead (the
    repository's own security test expects exactly that). -/
theorem C3_counterexample :
    CodecPng.decode toyAead (CodecPng.encode toyAead (List.replicate 16 0)
        (List.replicate 16 0) [5] [97] (some "a")).stream (some "b") =
      Except.error Err.pngCorrupted ∧
    Err.pngCorrupted ≠ Err.decryptionFailed :=
  ⟨by decide, by decide⟩

/-- C3 (amended): for a nonempty filename of at most 255 UTF-8 bytes, a
    payload and ciphertext shorter than 2^64 bytes, a host that does not
    already end with the trailing marker, and a sealed audio block inside
    which neither the plain block magic nor the encryption magic occurs
    after its first byte (true of a real cipher's output except with
    negligible probability), decoding with the same non-empty password
    reproduces (d, f) exactly in both codecs; decoding with a password
    whose derived key fails AEAD verification makes the image codec fail
    with PngCorruptedError and the audio codec with CorruptedFileError,
    each wrapping the envelope's DecryptionFailed. -/
theorem C3_encrypted_roundtrip (A : AEAD) (s n host d F : Bytes) (p p' : String)
    (hF : F ≠ []) (hFl : F.length ≤ 255) (hd : d.length < 2 ^ 64)
    (hp : p ≠ "") (hp' : p' ≠ "")
    (hs : s.length = 16) (hn : n.length = 16)
    (hTail : CodecMp3.TAIL_MAGIC.isSuffixOf host = false)
    (htag : ∀ k nn x, ((A.enc k nn x).2).length = 16)
    (hcorr : ∀ k nn x, A.dec k nn (A.enc k nn x).1 (A.enc k nn x).2 = some x)
    (hctP : ((A.enc (A.deriveKey p s) n
      (CodecPng.buildHeader d F ++ d)).1).length < 2 ^ 64)
    (hctM : ((A.enc (A.deriveKey p s) n
      (CodecMp3.MAGIC ++ (u16be CodecMp3.VERSION ++ (u64be d.length ++
        (u32be (crc32 d) ++ (u16be F.length ++ (F ++ d))))))).1).length < 2 ^ 64)
    (hWrongPng : A.dec (A.deriveKey p' s) n
        (A.enc (A.deriveKey p s) n (CodecPng.buildHeader d F ++ d)).1
        (A.enc (A.deriveKey p s) n (CodecPng.buildHeader d F ++ d)).2 = none)
    (hWrongMp3 : A.dec (A.deriveKey p' s) n
        (A.enc (A.deriveKey p s) n (CodecMp3.MAGIC ++ (u16be CodecMp3.VERSION ++
          (u64be d.length ++ (u32be (crc32 d) ++ (u16be F.length ++ (F ++ d))))))).1
        (A.enc (A.deriveKey p s) n (CodecMp3.MAGIC ++ (u16be CodecMp3.VERSION ++
          (u64be d.length ++ (u32be (crc32 d) ++ (u16be F.length ++ (F ++ d))))))).2 =
        none)
    (hEo : ∀ q, 0 < q →
      matchesAt (CodecMp3.buildBlock A s n d F (some p)) Encryption.MAGIC q = false)
    (hMo : ∀ q,
      matchesAt (CodecMp3.buildBlock A s n d F (some p)) CodecMp3.MAGIC q = false) :
    CodecPng.decode A (CodecPng.encode A s n d F (some p)).stream (some p) =
      Except.ok ⟨d, F, d.length⟩ ∧
    CodecPng.decode A (CodecPng.encode A s n d F (some p)).stream (some p') =
      Except.error Err.pngCorrupted ∧
    CodecMp3.decode A (CodecMp3.encode A s n host d F (some p)).mp3_bytes (some p) =
      Except.ok ⟨d, F, d.length⟩ ∧
    CodecMp3.decode A (CodecMp3.encode A s n host d F (some p)).mp3_bytes (some p') =
      Except.error Err.corruptedFile := by
  have hdecM : Encryption.decrypt A (Encryption.encryptRaw A s n
      (CodecMp3.MAGIC ++ (u16be CodecMp3.VERSION ++ (u64be d.length ++
        (u32be (crc32 d) ++ (u16be F.length ++ (F ++ d)))))) p) p =
      Except.ok (CodecMp3.MAGIC ++ (u16be CodecMp3.VERSION ++ (u64be d.length ++
        (u32be (crc32 d) ++ (u16be F.length ++ (F ++ d)))))) := by
    have h := decrypt_encryptRaw A s n (CodecMp3.MAGIC ++ (u16be CodecMp3.VERSION ++
      (u64be d.length ++ (u32be (crc32 d) ++ (u16be F.length ++ (F ++ d)))))) [] p p
      hp hs hn (htag _ _ _) hctM
    rw [List.append_nil] at h
    rw [h, hcorr]
  have hdecM' : Encryption.decrypt A (Encryption.encryptRaw A s n
      (CodecMp3.MAGIC ++ (u16be CodecMp3.VERSION ++ (u64be d.length ++
        (u32be (crc32 d) ++ (u16be F.length ++ (F ++ d)))))) p) p' =
      Except.error Err.decryptionFailed := by
    have h := decrypt_encryptRaw A s n (CodecMp3.MAGIC ++ (u16be CodecMp3.VERSION ++
      (u64be d.length ++ (u32be (crc32 d) ++ (u16be F.length ++ (F ++ d)))))) [] p p'
      hp' hs hn (htag _ _ _) hctM
    rw [List.append_nil] at h
    rw [h, hWrongMp3]
  refine ⟨?_, ?_, ?_, ?_⟩
  · exact png_decode_encrypted_ok A s n d F p p hF hp hp hs hn (htag _ _ _) hctP
      hFl hd (hcorr _ _ _)
  · exact png_decode_encrypted_fail A s n d F p p' hF hp hp' hs hn (htag _ _ _)
      hctP hWrongPng
  · rw [mp3_decode_encrypted A s n host d F p (some p) hTail hF hp hFl hEo hMo]
    simp only [pwTruthy_some hp, Bool.not_true, Bool.false_eq_true, if_false,
      Option.getD_some, hdecM, mp3ParseBody_ok d F hFl hd]
  · rw [mp3_decode_encrypted A s n host d F p (some p') hTail hF hp hFl hEo hMo]
    simp only [pwTruthy_some hp', Bool.not_true, Bool.false_eq_true, if_false,
      Option.getD_some, hdecM']

theorem C3_encrypted_roundtrip_witness :
    CodecPng.decode toyAead (CodecPng.encode toyAead (List.replicate 16 0)
        (List.replicate 16 0) [5] [97] (some "a")).stream (some "a") =
      Except.ok ⟨[5], [97], 1⟩ ∧
    CodecPng.decode toyAead (CodecPng.encode toyAead (List.replicate 16 0)
        (List.replicate 16 0) [5] [97] (some "a")).stream (some "b") =
      Except.error Err.pngCorrupted ∧
    CodecMp3.decode toyAead (CodecMp3.encode toyAead (List.replicate 16 0)
        (List.replicate 16 0) [1, 2] [5] [97] (some "a")).mp3_bytes (some "a") =
      Except.ok ⟨[5], [97], 1⟩ ∧
    CodecMp3.decode toyAead (CodecMp3.encode toyAead (List.replicate 16 0)
        (List.replicate 16 0) [1, 2] [5] [97] (some "a")).mp3_bytes (some "b") =
      Except.error Err.corruptedFile :=
  C3_encrypted_roundtrip toyAead (List.replicate 16 0) (List.replicate 16 0) [1, 2]
    [5] [97] "a" "b" (by decide) (by decide) (by decide) (by decide) (by decide)
    (by decide) (by decide) (by decide) toyAead_tag_length toyAead_correct
    (by decide) (by decide) (by decide) (by decide)
    (no_match_after_of_all 0 (by decide) (by decide))
    (no_match_at_all_of_all (by decide) (by decide))

/-- C5: the claim that decoding an encrypted carrier without a password
    fails with the InvalidPassword kind is refuted: the image codec raises
    its PngCorruptedError (and the audio codec its CorruptedFileError). -/
theorem C5_counterexample :
    CodecPng.decode toyAead (CodecPng.encode toyAead (List.replicate 16 0)
        (List.replicate 16 0) [5] [97] (some "a")).stream none =
      Except.error Err.pngCorrupted ∧
    Err.pngCorrupted ≠ Err.invalidPassword :=
  ⟨by decide, by decide⟩

/-- C5 (amended): decoding with a missing or empty password fails, but with
    the codecs' Corrupted error kinds (PngCorruptedError for any pixel
    stream that begins with the envelope magic, CorruptedFileError for an
    encrypted audio carrier), not with InvalidPassword. -/
theorem C5_missing_password (A : AEAD) (s n host d F st : Bytes) (p : String)
    (pw : Option String) (hpw : pwTruthy pw = false)
    (hst : Encryption.isEncrypted st = true)
    (hTail : CodecMp3.TAIL_MAGIC.isSuffixOf host = false)
    (hF : F ≠ []) (hp : p ≠ "") (hFl : F.length ≤ 255)
    (hEo : ∀ q, 0 < q →
      matchesAt (CodecMp3.buildBlock A s n d F (some p)) Encryption.MAGIC q = false)
    (hMo : ∀ q,
      matchesAt (CodecMp3.buildBlock A s n d F (some p)) CodecMp3.MAGIC q = false) :
    CodecPng.decode A st pw = Except.error Err.pngCorrupted ∧
    CodecMp3.decode A (CodecMp3.encode A s n host d F (some p)).mp3_bytes pw =
      Except.error Err.corruptedFile := by
  constructor
  · simp only [CodecPng.decode, hst, hpw, Bool.not_false, if_true]
  · rw [mp3_decode_encrypted A s n host d F p pw hTail hF hp hFl hEo hMo]
    simp [hpw]

theorem C5_missing_password_witness :
    CodecPng.decode toyAead (CodecPng.encode toyAead (List.replicate 16 0)
        (List.replicate 16 0) [5] [97] (some "a")).stream none =
      Except.error Err.pngCorrupted ∧
    CodecMp3.decode toyAead (CodecMp3.encode toyAead (List.replicate 16 0)
        (List.replicate 16 0) [1, 2] [5] [97] (some "a")).mp3_bytes none =
      Except.error Err.corruptedFile :=
  C5_missing_password toyAead (List.replicate 16 0) (List.replicate 16 0) [1, 2]
    [5] [97] (CodecPng.encode toyAead (List.replicate 16 0) (List.replicate 16 0)
      [5] [97] (some "a")).stream "a" none
    (by decide) (by decide) (by decide) (by decide) (by decide) (by decide)
    (no_match_after_of_all 0 (by decide) (by decide))
    (no_match_at_all_of_all (by decide) (by decide))

/-- C6: the claim that removing the trailing end marker always yields
    NotEncoded is refuted when the embedded payload itself ends with the
    marker bytes: the shortened carrier still ends with the marker and
    decode fails with CorruptedFileError (truncated image data) instead. -/
theorem C6_counterexample :
    CodecMp3.decode toyAead
      ((CodecMp3.encode toyAead [] [] [] CodecMp3.TAIL_MAGIC [97] none).mp3_bytes.take
        ((CodecMp3.encode toyAead [] [] [] CodecMp3.TAIL_MAGIC [97]
          none).mp3_bytes.length - 8))
      none = Except.error Err.corruptedFile ∧
    Err.corruptedFile ≠ Err.notEncoded :=
  ⟨by decide, by decide⟩

/-- C6 (amended): a carrier that no longer ends with the end-of-block marker
    (as after removing the marker, provided the remaining bytes do not
    themselves end with the marker sequence) fails with NotEncoded; an image
    carrier whose pixel stream is shortened below the declared payload
    length fails with PngCorruptedError, the code's truncation error.  In
    neither case is a partial payload returned. -/
theorem C6_truncation (A : AEAD) (s n d F carrier : Bytes) (pw : Option String)
    (t : Nat)
    (hnd : CodecMp3.TAIL_MAGIC.isSuffixOf
      (carrier.take (carrier.length - CodecMp3.TAIL_LEN)) = false)
    (hF : F ≠ []) (hFl : F.length ≤ 255) (hd : d.length < 2 ^ 64)
    (ht1 : 22 + F.length ≤ t) (ht2 : t < 22 + F.length + d.length) :
    CodecMp3.decode A (carrier.take (carrier.length - CodecMp3.TAIL_LEN)) pw =
      Except.error Err.notEncoded ∧
    CodecPng.decode A ((CodecPng.encode A s n d F none).stream.take t) none =
      Except.error Err.pngCorrupted := by
  constructor
  · simp [CodecMp3.decode, CodecMp3.findAndParseBlock, hnd]
  · obtain ⟨k, hstream⟩ := pngEncode_stream_plain A s n d F hF
    rw [hstream]
    have htrunc : (CodecPng.buildHeader d F ++ (d ++ List.replicate k 0)).take t =
        CodecPng.buildHeader d F ++
          (d ++ List.replicate k 0).take (t - (22 + F.length)) := by
      rw [List.take_append_eq_append_take,
        List.take_of_length_le (by rw [pngBuildHeader_length d F hFl]; omega),
        pngBuildHeader_length d F hFl]
    rw [htrunc]
    have henc := isEncrypted_pngPlain d F ((d ++ List.replicate k 0).take
      (t - (22 + F.length)))
    have hparse := pngParseHeader_ok d F ((d ++ List.replicate k 0).take
      (t - (22 + F.length))) hFl hd
    have hlenT : (CodecPng.buildHeader d F ++
        (d ++ List.replicate k 0).take (t - (22 + F.length))).length = t := by
      simp [pngBuildHeader_length d F hFl, List.length_take, List.length_replicate]
      omega
    simp only [CodecPng.decode, henc, Bool.false_eq_true, if_false, hparse]
    rw [if_pos (by omega)]

theorem C6_truncation_witness :
    CodecMp3.decode toyAead
      (((CodecMp3.encode toyAead [] [] [1, 2] [9] [97] none).mp3_bytes).take
        ((CodecMp3.encode toyAead [] [] [1, 2] [9] [97] none).mp3_bytes.length -
          CodecMp3.TAIL_LEN)) none = Except.error Err.notEncoded ∧
    CodecPng.decode toyAead
      ((CodecPng.encode toyAead [] [] [9, 9] [97] none).stream.take 24) none =
      Except.error Err.pngCorrupted :=
  C6_truncation toyAead [] [] [9, 9] [97]
    (CodecMp3.encode toyAead [] [] [1, 2] [9] [97] none).mp3_bytes none 24
    (by decide) (by decide) (by decide) (by decide) (by decide) (by decide)

/-- C7: encoding a filename whose UTF-8 byte sequence exceeds 255 bytes
    stores and returns its 255-byte prefix: the decoded name is exactly the
    truncation of the encoded bytes at 255, hence at most 255 bytes and a
    prefix of the original byte sequence. -/
theorem C7_filename_truncation (A : AEAD) (s n d F : Bytes)
    (hLong : 255 < F.length) (hd : d.length < 2 ^ 64) :
    CodecPng.decode A (CodecPng.encode A s n d F none).stream none =
      Except.ok ⟨d, F.take 255, d.length⟩ ∧
    (F.take 255).length ≤ 255 ∧ F.take 255 <+: F := by
  have hF : F ≠ [] := by
    intro h
    rw [h] at hLong
    simp at hLong
  have hF' : F.take 255 ≠ [] := by
    have hl : (F.take 255).length = 255 := by
      rw [List.length_take]
      omega
    intro h
    rw [h] at hl
    simp at hl
  have hemp : F.isEmpty = false := by
    cases F with
    | nil => exact absurd rfl hF
    | cons a t => rfl
  have hemp' : (F.take 255).isEmpty = false := by
    cases h : F.take 255 with
    | nil => exact absurd h hF'
    | cons a t => rfl
  have hbh : CodecPng.buildHeader d F = CodecPng.buildHeader d (F.take 255) := by
    simp [CodecPng.buildHeader, CodecPng.MAX_FNAME_LEN, List.take_take]
  have hst : (CodecPng.encode A s n d F none).stream =
      (CodecPng.encode A s n d (F.take 255) none).stream := by
    simp [CodecPng.encode, hemp, hemp', hbh]
  rw [hst]
  exact ⟨png_roundtrip_plain A s n d (F.take 255) hF'
      (by simp [List.length_take]) hd,
    by simp [List.length_take], List.take_prefix 255 F⟩

theorem C7_filename_truncation_witness :
    CodecPng.decode toyAead (CodecPng.encode toyAead [] [] [3]
        (List.replicate 300 97) none).stream none =
      Except.ok ⟨[3], (List.replicate 300 97 : Bytes).take 255, 1⟩ ∧
    ((List.replicate 300 97 : Bytes).take 255).length ≤ 255 ∧
    (List.replicate 300 97 : Bytes).take 255 <+: List.replicate 300 97 :=
  C7_filename_truncation toyAead [] [] [3] (List.replicate 300 97)
    (by decide) (by decide)

/-! ### The ceiling square root really is the ceiling of the square root -/

theorem ceilSqrtFrom_spec (n : Nat) : ∀ f w, (∀ v, v < w → v * v < n) →
    n ≤ (w + f) * (w + f) →
    n ≤ ceilSqrtFrom n w f * ceilSqrtFrom n w f ∧
      ∀ v, v < ceilSqrtFrom n w f → v * v < n := by
  intro f
  induction f with
  | zero =>
    intro w hlow hhigh
    constructor
    · simpa [ceilSqrtFrom] using hhigh
    · simpa [ceilSqrtFrom] using hlow
  | succ f ih =>
    intro w hlow hhigh
    simp only [ceilSqrtFrom]
    by_cases h : n ≤ w * w
    · rw [if_pos h]
      exact ⟨h, hlow⟩
    · rw [if_neg h]
      apply ih (w + 1)
      · intro v hv
        rcases Nat.lt_or_ge v w with hvw | hvw
        · exact hlow v hvw
        · have : v = w := by omega
          subst this
          omega
      · have he : w + 1 + f = w + (f + 1) := by omega
        rw [he]
        exact hhigh

theorem ceilSqrt_spec (m : Nat) :
    m ≤ ceilSqrt m * ceilSqrt m ∧ ∀ v, v < ceilSqrt m → v * v < m := by
  unfold ceilSqrt
  apply ceilSqrtFrom_spec
  · intro v hv
    omega
  · have : m ≤ (m + 1) * (m + 1) := by nlinarith
    simpa using this

theorem ceilSqrt_le_of (m v : Nat) (h : m ≤ v * v) : ceilSqrt m ≤ v := by
  by_contra hc
  push_neg at hc
  have := (ceilSqrt_spec m).2 v hc
  omega

/-- C8: the layout of the image codec.  The padded buffer fills whole
    pixels, the width is the exact ceiling square root of the pixel count,
    the height is the ceiling division of the pixel count by the width, the
    raster holds every pixel, and the output stream fills the rectangular
    canvas exactly; the computation is a pure function of the inputs. -/
theorem C8_dimensions (A : AEAD) (s n d F : Bytes) (pw : Option String) :
    (CodecPng.encode A s n d F pw).image_width =
      ceilSqrt (CodecPng.pixelCount A s n d F pw) ∧
    (CodecPng.encode A s n d F pw).image_height =
      ceilDiv (CodecPng.pixelCount A s n d F pw)
        (ceilSqrt (CodecPng.pixelCount A s n d F pw)) ∧
    CodecPng.pixelCount A s n d F pw ≤
      (CodecPng.encode A s n d F pw).image_width *
        (CodecPng.encode A s n d F pw).image_height ∧
    (CodecPng.encode A s n d F pw).stream.length =
      3 * ((CodecPng.encode A s n d F pw).image_width *
        (CodecPng.encode A s n d F pw).image_height) ∧
    CodecPng.pixelCount A s n d F pw ≤
      ceilSqrt (CodecPng.pixelCount A s n d F pw) *
        ceilSqrt (CodecPng.pixelCount A s n d F pw) ∧
    (∀ v, CodecPng.pixelCount A s n d F pw ≤ v * v →
      ceilSqrt (CodecPng.pixelCount A s n d F pw) ≤ v) := by
  set pc := CodecPng.pixelCount A s n d F pw with hpc
  have hw : (CodecPng.encode A s n d F pw).image_width = ceilSqrt pc := by
    rw [hpc]
    simp only [CodecPng.encode, CodecPng.pixelCount, CodecPng.payloadLength,
      CodecPng.squareDimensions, List.length_append, List.length_replicate]
  have hh : (CodecPng.encode A s n d F pw).image_height =
      ceilDiv pc (ceilSqrt pc) := by
    rw [hpc]
    simp only [CodecPng.encode, CodecPng.pixelCount, CodecPng.payloadLength,
      CodecPng.squareDimensions, List.length_append, List.length_replicate]
  have hle : pc ≤ ceilSqrt pc * ceilDiv pc (ceilSqrt pc) := by
    by_cases hpc0 : pc = 0
    · simp [hpc0]
    · have hw1 : 1 ≤ ceilSqrt pc := by
        by_contra hcw
        push_neg at hcw
        interval_cases hcw2 : ceilSqrt pc
        have := (ceilSqrt_spec pc).1
        rw [hcw2] at this
        omega
      simp only [ceilDiv]
      have hdm := Nat.div_add_mod (pc + ceilSqrt pc - 1) (ceilSqrt pc)
      have hmod : (pc + ceilSqrt pc - 1) % ceilSqrt pc < ceilSqrt pc :=
        Nat.mod_lt _ (by omega)
      omega
  have hst : (CodecPng.encode A s n d F pw).stream.length =
      3 * ((CodecPng.encode A s n d F pw).image_width *
        (CodecPng.encode A s n d F pw).image_height) := by
    rw [hw, hh]
    have hpc' : pc = ((CodecPng.payloadLength A s n d F pw) +
        (if (CodecPng.payloadLength A s n d F pw) % 3 = 0 then 0
         else 3 - (CodecPng.payloadLength A s n d F pw) % 3)) / 3 := by
      rw [hpc]
      rfl
    have hdiv : ((CodecPng.payloadLength A s n d F pw) +
        (if (CodecPng.payloadLength A s n d F pw) % 3 = 0 then 0
         else 3 - (CodecPng.payloadLength A s n d F pw) % 3)) % 3 = 0 := by
      split <;> omega
    have h3pc : 3 * pc = (CodecPng.payloadLength A s n d F pw) +
        (if (CodecPng.payloadLength A s n d F pw) % 3 = 0 then 0
         else 3 - (CodecPng.payloadLength A s n d F pw) % 3) := by
      rw [hpc']
      omega
    have hlen : (CodecPng.encode A s n d F pw).stream.length =
        3 * pc + (ceilSqrt pc * ceilDiv pc (ceilSqrt pc) - pc) * 3 := by
      rw [h3pc, hpc]
      simp only [CodecPng.encode, CodecPng.pixelCount, CodecPng.payloadLength,
        CodecPng.squareDimensions, List.length_append, List.length_replicate]
    rw [hlen]
    omega
  exact ⟨hw, by rw [hh], by rw [hw, hh]; exact hle, hst,
    (ceilSqrt_spec pc).1, fun v hv => ceilSqrt_le_of pc v hv⟩

/-- C9: the re-embedding claim with arbitrary optional passwords is refuted:
    when the first block is encrypted, the strip's backward search for the
    plain block magic finds an occurrence inside the host itself and
    truncates the host there, so the re-embedded carrier's host prefix no
    longer equals the original host byte-for-byte. -/
theorem C9_counterexample :
    (CodecMp3.encode toyAead [] [] (CodecMp3.encode toyAead (List.replicate 16 0)
        (List.replicate 16 0) (CodecMp3.MAGIC ++ [9, 9, 9]) [1] [97]
        (some "a")).mp3_bytes [2] [98] none).mp3_bytes.take
      (CodecMp3.MAGIC ++ ([9, 9, 9] : Bytes)).length ≠
      CodecMp3.MAGIC ++ [9, 9, 9] := by
  decide

/-- C9 (amended): for unencrypted embedding, re-encoding on an
    already-embedded carrier strips the previous block and replaces it: the
    output is exactly the original host followed by the new block, its
    host-length prefix equals the host byte-for-byte, and it decodes to
    (d2, f2) — under the same side conditions as the plain round trip for
    both blocks. -/
theorem C9_reembed_replaces (A : AEAD) (s1 n1 s2 n2 host d1 F1 d2 F2 : Bytes)
    (hTail : CodecMp3.TAIL_MAGIC.isSuffixOf host = false)
    (hF1 : F1 ≠ []) (hFl1 : F1.length ≤ 255)
    (hF2 : F2 ≠ []) (hFl2 : F2.length ≤ 255) (hd2 : d2.length < 2 ^ 64)
    (hM1 : ∀ q, 0 < q →
      matchesAt (CodecMp3.buildBlock A s1 n1 d1 F1 none) CodecMp3.MAGIC q = false)
    (hM2 : ∀ q, 0 < q →
      matchesAt (CodecMp3.buildBlock A s2 n2 d2 F2 none) CodecMp3.MAGIC q = false)
    (hE2 : ∀ q,
      matchesAt (CodecMp3.buildBlock A s2 n2 d2 F2 none) Encryption.MAGIC q = false) :
    (CodecMp3.encode A s2 n2 (CodecMp3.encode A s1 n1 host d1 F1 none).mp3_bytes
      d2 F2 none).mp3_bytes = host ++ CodecMp3.buildBlock A s2 n2 d2 F2 none ∧
    (CodecMp3.encode A s2 n2 (CodecMp3.encode A s1 n1 host d1 F1 none).mp3_bytes
      d2 F2 none).mp3_bytes.take host.length = host ∧
    CodecMp3.decode A (CodecMp3.encode A s2 n2
      (CodecMp3.encode A s1 n1 host d1 F1 none).mp3_bytes d2 F2 none).mp3_bytes
      none = Except.ok ⟨d2, F2, d2.length⟩ := by
  have hcar1 := mp3Encode_carrier A s1 n1 host d1 F1 none hTail hF1
  have hbb1 := mp3BuildBlock_plain A s1 n1 d1 F1 hFl1
  rw [hbb1] at hcar1 hM1
  set B1 := CodecMp3.MAGIC ++ (u16be CodecMp3.VERSION ++ (u64be d1.length ++
    (u32be (crc32 d1) ++ (u16be F1.length ++ (F1 ++ d1))))) with hB1def
  have hemp2 : F2.isEmpty = false := by
    cases F2 with
    | nil => exact absurd rfl hF2
    | cons a t => rfl
  have hsuf : CodecMp3.TAIL_MAGIC.isSuffixOf
      ((CodecMp3.encode A s1 n1 host d1 F1 none).mp3_bytes) = true := by
    rw [hcar1, ← List.append_assoc]
    exact isSuffixOf_append_right _ _
  have h8 : 8 ≤ B1.length := by
    rw [hB1def]
    simp [CodecMp3.MAGIC, u16be, u32be, u64be]
  have hlen1 : (CodecMp3.encode A s1 n1 host d1 F1 none).mp3_bytes.length =
      host.length + B1.length + 8 := by
    rw [hcar1]
    simp [CodecMp3.TAIL_MAGIC]
    try omega
  have hmatch : matchesAt ((CodecMp3.encode A s1 n1 host d1 F1 none).mp3_bytes)
      CodecMp3.MAGIC host.length = true := by
    rw [hcar1, matchesAt_shift _ _ (Nat.le_refl _), Nat.sub_self, hB1def,
      List.append_assoc]
    exact matchesAt_zero _ _
  have hfind : rfind ((CodecMp3.encode A s1 n1 host d1 F1 none).mp3_bytes)
      CodecMp3.MAGIC ((CodecMp3.encode A s1 n1 host d1 F1 none).mp3_bytes.length) =
      some host.length := by
    apply rfind_eq_some hmatch
    · intro q hq
      rw [hcar1, matchesAt_shift _ _ (by omega)]
      exact hM1 _ (by omega)
    · rw [hlen1]
      simp [CodecMp3.MAGIC]
      try omega
    · rw [hlen1]
      simp [CodecMp3.MAGIC]
      try omega
  have hout : (CodecMp3.encode A s2 n2
      (CodecMp3.encode A s1 n1 host d1 F1 none).mp3_bytes d2 F2 none).mp3_bytes =
      host ++ CodecMp3.buildBlock A s2 n2 d2 F2 none := by
    rw [hcar1] at hsuf hfind
    rw [hcar1]
    simp only [CodecMp3.encode, hsuf, if_true, hfind, hemp2, Bool.false_eq_true,
      if_false]
    rw [List.take_left]
  refine ⟨hout, ?_, ?_⟩
  · rw [hout]
    exact List.take_left host _
  · have hrt := mp3_roundtrip_plain A s2 n2 host d2 F2 hTail hF2 hFl2 hd2 hM2 hE2
    rw [mp3Encode_carrier A s2 n2 host d2 F2 none hTail hF2] at hrt
    rw [hout]
    exact hrt

theorem C9_reembed_replaces_witness :
    (CodecMp3.encode toyAead [] [] (CodecMp3.encode toyAead [] [] [1, 2] [5] [97]
      none).mp3_bytes [6] [98] none).mp3_bytes =
      [1, 2] ++ CodecMp3.buildBlock toyAead [] [] [6] [98] none ∧
    (CodecMp3.encode toyAead [] [] (CodecMp3.encode toyAead [] [] [1, 2] [5] [97]
      none).mp3_bytes [6] [98] none).mp3_bytes.take ([1, 2] : Bytes).length =
      [1, 2] ∧
    CodecMp3.decode toyAead (CodecMp3.encode toyAead [] []
      (CodecMp3.encode toyAead [] [] [1, 2] [5] [97] none).mp3_bytes [6] [98]
      none).mp3_bytes none = Except.ok ⟨[6], [98], 1⟩ :=
  C9_reembed_replaces toyAead [] [] [] [] [1, 2] [5] [97] [6] [98]
    (by decide) (by decide) (by decide) (by decide) (by decide) (by decide)
    (no_match_after_of_all 0 (by decide) (by decide))
    (no_match_after_of_all 0 (by decide) (by decide))
    (no_match_at_all_of_all (by decide) (by decide))

theorem C4_decrypt_failures_witness :
    Encryption.decrypt toyAead [] "x" = Except.error Err.decryptionFailed ∧
    Encryption.decrypt toyAead (Encryption.MAGIC ++ (List.replicate 16 0 ++
      (List.replicate 16 0 ++ (List.replicate 16 0 ++ (u64be 5 ++ ([] ++ [])))))) "x" =
      Except.error Err.decryptionFailed ∧
    Encryption.decrypt toyAead (Encryption.MAGIC ++ (List.replicate 16 0 ++
      (List.replicate 16 0 ++ (List.replicate 16 0 ++ (u64be ([1] : Bytes).length ++
        (([1] : Bytes) ++ ([] : Bytes))))))) "x" = Except.error Err.decryptionFailed :=
  ⟨(C4_decrypt_failures toyAead [] (List.replicate 16 0) (List.replicate 16 0) [1]
      (List.replicate 16 0) [] "x" (by decide)).1 (by decide),
   (C4_decrypt_failures toyAead (Encryption.MAGIC ++ (List.replicate 16 0 ++
      (List.replicate 16 0 ++ (List.replicate 16 0 ++ (u64be 5 ++ ([] ++ []))))))
      (List.replicate 16 0) (List.replicate 16 0) [1] (List.replicate 16 0) [] "x"
      (by decide)).2.2.1 (by decide),
   (C4_decrypt_failures toyAead [] (List.replicate 16 0) (List.replicate 16 0) [1]
      (List.replicate 16 0) [] "x" (by decide)).2.2.2 (by decide) (by decide)
      (by decide) (by decide) (by decide)⟩

end SoundPixel
